import Mathlib

/-!
# SLV2 world loading (`src/world.c`)

A shallow embedding of the catalogue builder of SLV2: the search-path scanner
(`slv2_world_load_path`, `slv2_world_load_directory`), the bundle loader
(`slv2_world_load_bundle`), the two registry folds (`slv2_world_load_plugin_classes`
and the plugin loop of `slv2_world_load_all`), the default search path built by
`slv2_world_load_all`, storage creation (`slv2_world_new_storage`) and the
filter accessor (`slv2_world_get_plugins_by_filter`).

C strings are lists of bytes (the bytes before the terminating NUL), the RDF
store is a duplicate-free list of triples, and the effects a caller can observe
(messages, storage creation, `opendir` probes) are recorded in a log.
-/

namespace SLV2

/-! ## Strings, nodes and values -/

/-- A C string: the bytes that precede the terminating NUL. -/
abbrev CStr := List Nat

/-- The sign of libc `strcmp`: bytes are compared left to right, and the
terminating NUL of the shorter string is smaller than every byte of a string. -/
def strcmp : CStr → CStr → Int
  | [], [] => 0
  | [], _ :: _ => -1
  | _ :: _, [] => 1
  | a :: as, b :: bs => if a < b then -1 else if b < a then 1 else strcmp as bs

/-- An RDF node of the store (`librdf_node`): a resource carries a URI string,
a literal carries its lexical value, a blank node carries its identifier. -/
inductive Node where
  | resource (uri : CStr)
  | literal (value : CStr)
  | blank (id : CStr)
  deriving DecidableEq, Repr

/-- Function `librdf_node_get_uri`: the URI of a resource node, NULL otherwise. -/
def librdf_node_get_uri : Node → Option CStr
  | .resource u => some u
  | _ => none

/-- Function `librdf_node_get_literal_value`: the value of a literal node, NULL
otherwise. -/
def librdf_node_get_literal_value : Node → Option CStr
  | .literal v => some v
  | _ => none

/-- Modelled from the spec: the `SLV2Value` type (declared in `slv2_internal.h`,
absent from the sources): a tagged union of a URI and a typed literal. -/
inductive SLV2Value where
  | uri (uri_val : CStr)
  | literal (str_val : CStr)
  deriving DecidableEq, Repr

/-- Modelled from the spec: `slv2_value_is_uri` tests the tag of a value. -/
def slv2_value_is_uri : SLV2Value → Bool
  | .uri _ => true
  | .literal _ => false

/-! ## Registry elements -/

/-- Modelled from the spec: a plugin class `{uri, parent_uri, label}`; the
parent and the label are pointers in the C structure, hence optional. -/
structure PluginClass where
  parent_uri : Option CStr
  uri : CStr
  label : Option CStr
  deriving DecidableEq, Repr

/-- Modelled from the spec: a plugin `{uri, bundle_uri, data_uris, extension_uri}`;
the C field of the extension resource is called `dynman_uri`. -/
structure Plugin where
  plugin_uri : CStr
  bundle_uri : Option CStr
  data_uris : List CStr
  dynman_uri : Option CStr
  deriving DecidableEq, Repr

/-- Modelled from the spec: `slv2_plugin_class_new` (in `pluginclass.c`, absent
from the sources) builds a class from the parent, URI and label it is given. -/
def slv2_plugin_class_new (parent_uri : Option CStr) (uri : CStr) (label : Option CStr) :
    PluginClass :=
  { parent_uri := parent_uri, uri := uri, label := label }

/-- Modelled from the spec: `slv2_plugin_new` (in `plugin.c`, absent from the
sources) builds a plugin with the given URI and bundle, an empty `data_uris`
and no extension resource. -/
def slv2_plugin_new (uri : CStr) (bundle_uri : Option CStr) : Plugin :=
  { plugin_uri := uri, bundle_uri := bundle_uri, data_uris := [], dynman_uri := none }

/-- Function `slv2_plugin_compare_by_uri`: `strcmp` of the two plugin URIs. -/
def slv2_plugin_compare_by_uri (a b : Plugin) : Int :=
  strcmp a.plugin_uri b.plugin_uri

/-- Function `slv2_plugin_class_compare_by_uri`: `strcmp` of the two class URIs. -/
def slv2_plugin_class_compare_by_uri (a b : PluginClass) : Int :=
  strcmp a.uri b.uri

/-- Library call `raptor_sequence_sort` (a `qsort` with the given comparator),
as a sort into non-decreasing comparator order. -/
def raptor_sequence_sort {α : Type} (cmp : α → α → Int) (seq : List α) : List α :=
  List.insertionSort (fun a b => cmp a b ≤ 0) seq

/-- Modelled from the spec: `slv2_plugin_classes_get_by_uri` (in
`pluginclasses.c`, absent from the sources) is the membership lookup by key:
the element whose URI is exactly `uri`, or NULL. -/
def slv2_plugin_classes_get_by_uri (classes : List PluginClass) (uri : CStr) :
    Option PluginClass :=
  classes.find? (fun c => decide (c.uri = uri))

/-- Modelled from the spec: `slv2_plugins_get_by_uri` (in `plugins.c`, absent
from the sources) is the membership lookup by key: the element whose URI is
exactly `uri`, or NULL. -/
def slv2_plugins_get_by_uri (plugins : List Plugin) (uri : CStr) : Option Plugin :=
  plugins.find? (fun p => decide (p.plugin_uri = uri))

/-! ## The plugin-class fold -/

/-- One row of the plugin-class query: the bindings `?class ?parent ?label`. -/
structure ClassRow where
  class_node : Node
  parent_node : Node
  label_node : Node
  deriving DecidableEq, Repr

/-- The body of the `while` loop of `slv2_world_load_plugin_classes`: one result
row is folded into the sequence `world->plugin_classes`. -/
def load_plugin_classes_row (classes : List PluginClass) (row : ClassRow) :
    List PluginClass :=
  let label := librdf_node_get_literal_value row.label_node
  match librdf_node_get_uri row.class_node, librdf_node_get_uri row.parent_node with
  | some class_uri, some parent_uri =>
    -- Check if this is another match for the last class (avoid search)
    match classes.head?, classes.getLast? with
    | some first, some prev =>
      if class_uri = prev.uri then
        classes -- TODO: Support classes with several parents
      else if strcmp prev.uri class_uri < 0 then
        classes ++ [slv2_plugin_class_new (some parent_uri) class_uri label]
      else if strcmp first.uri class_uri > 0 then
        slv2_plugin_class_new (some parent_uri) class_uri label :: classes
      else
        match slv2_plugin_classes_get_by_uri classes class_uri with
        | some _ => classes
        | none =>
          raptor_sequence_sort slv2_plugin_class_compare_by_uri
            (classes ++ [slv2_plugin_class_new (some parent_uri) class_uri label])
    | _, _ =>
      -- n_classes == 0
      classes ++ [slv2_plugin_class_new (some parent_uri) class_uri label]
  | _, _ => classes

/-- Function `slv2_world_load_plugin_classes`: every row of the query result is
folded, in arrival order, into `world->plugin_classes`. -/
def slv2_world_load_plugin_classes (classes : List PluginClass) (results : List ClassRow) :
    List PluginClass :=
  results.foldl load_plugin_classes_row classes

/-! ## The plugin fold of `slv2_world_load_all` -/

/-- A triple (statement) of the RDF store. -/
structure Triple where
  subject : Node
  predicate : Node
  object : Node
  deriving DecidableEq, Repr

/-- A shared object as `dlopen` returns it: whether `dlsym` finds
`lv2_dyn_manifest_open`, and, when it finds `lv2_dyn_manifest_get_subjects`, the
triples that parsing the text written by that function yields for a base URI. -/
structure Lib where
  has_open : Bool
  get_subjects : Option (CStr → List Triple)

/-- What the loader reads from its surroundings: the build option
`SLV2_DYN_MANIFEST`, whether librdf offers the "trees" storage, the triples the
Turtle parser reads from a resource, URI resolution, `slv2_uri_to_path` (in
`util.c`, absent from the sources), and the `dlopen` and `opendir`/`readdir`
system calls. -/
structure Env where
  SLV2_DYN_MANIFEST : Bool
  trees_ok : Bool
  parse : CStr → List Triple
  relative_to_base : CStr → CStr → CStr
  slv2_uri_to_path : CStr → Option CStr
  dlopen : Option CStr → Option Lib
  opendir : CStr → Option (List CStr)

/-- One row of the plugin query: the bindings `?plugin ?data ?bundle`. -/
structure PluginRow where
  plugin_node : Node
  data_node : Node
  bundle_node : Node
  deriving DecidableEq, Repr

/-- The test `lib != NULL` of the `SLV2_DYN_MANIFEST` block of the plugin loop:
`dlopen (slv2_uri_to_path (data_uri_str), RTLD_LAZY)` succeeds. Without the
build option the block is not compiled. -/
def is_dynman (env : Env) (data_uri : CStr) : Bool :=
  env.SLV2_DYN_MANIFEST && (env.dlopen (env.slv2_uri_to_path data_uri)).isSome

/-- The end of the loop body of the plugin loop, on the plugin the row was
resolved to: an extension-supplied data resource becomes `dynman_uri`, any
other is pushed on `data_uris`. -/
def record_data (env : Env) (data_uri : CStr) (plugin : Plugin) : Plugin :=
  if is_dynman env data_uri then
    { plugin with dynman_uri := some data_uri }
  else
    -- FIXME: check for duplicates
    { plugin with data_uris := plugin.data_uris ++ [data_uri] }

/-- A write through the pointer a by-URI lookup returned: the first element
satisfying `hit` is the object that is modified. -/
def update_found {α : Type} (hit : α → Bool) (f : α → α) : List α → List α
  | [] => []
  | a :: as => if hit a then f a :: as else a :: update_found hit f as

/-- The body of the plugin loop of `slv2_world_load_all` up to the update of the
plugin: the row is resolved to a plugin of `world->plugins` (the last one, a
new one pushed, shifted or pushed and sorted, or the one found by URI) and its
data resource is recorded on that plugin. -/
def load_all_row (env : Env) (plugins : List Plugin) (row : PluginRow) : List Plugin :=
  let bundle_uri := librdf_node_get_uri row.bundle_node
  match librdf_node_get_uri row.plugin_node, librdf_node_get_uri row.data_node with
  | some plugin_uri, some data_uri =>
    match plugins.head?, plugins.getLast? with
    | some first, some prev =>
      -- Check if this is another match for the last plugin (avoid search)
      if plugin_uri = prev.plugin_uri then
        plugins.dropLast ++ [record_data env data_uri prev]
      -- If the URI is > the last in the list, just append (avoid sort)
      else if strcmp prev.plugin_uri plugin_uri < 0 then
        plugins ++ [record_data env data_uri (slv2_plugin_new plugin_uri bundle_uri)]
      -- If the URI is < the first in the list, just prepend (avoid sort)
      else if strcmp first.plugin_uri plugin_uri > 0 then
        record_data env data_uri (slv2_plugin_new plugin_uri bundle_uri) :: plugins
      -- Otherwise the query engine is giving us unsorted results :/
      else
        match slv2_plugins_get_by_uri plugins plugin_uri with
        | some _ =>
          update_found (fun p => decide (p.plugin_uri = plugin_uri))
            (record_data env data_uri) plugins
        | none =>
          raptor_sequence_sort slv2_plugin_compare_by_uri
            (plugins ++ [record_data env data_uri (slv2_plugin_new plugin_uri bundle_uri)])
    | _, _ =>
      -- n_plugins == 0
      plugins ++ [record_data env data_uri (slv2_plugin_new plugin_uri bundle_uri)]
  | _, _ => plugins

/-- Whether the loop body advances the result stream a second time: in the
`SLV2_DYN_MANIFEST` block `librdf_query_results_next` is called when `dlopen`
succeeds, and again at the end of the body. -/
def advances_twice (env : Env) (row : PluginRow) : Bool :=
  match librdf_node_get_uri row.plugin_node, librdf_node_get_uri row.data_node with
  | some _, some data_uri => is_dynman env data_uri
  | _, _ => false

/-- The plugin loop of `slv2_world_load_all` over the rows of the query result.
The flag says that the previous body advanced the stream twice, so that the
row at the head was stepped over without being read. -/
def load_all_plugins (env : Env) : List Plugin → Bool → List PluginRow → List Plugin
  | plugins, _, [] => plugins
  | plugins, true, _ :: rest => load_all_plugins env plugins false rest
  | plugins, false, row :: rest =>
    load_all_plugins env (load_all_row env plugins row) (advances_twice env row) rest

/-! ## The world, the store and the bundle loader -/

/-- The bytes of a string literal of the C source. -/
def cstr (s : String) : CStr := s.data.map Char.toNat

/-- The storage backends `slv2_world_new_storage` asks librdf for. -/
inductive Backend where
  | trees
  | hashes
  deriving DecidableEq, Repr

/-- What a caller can observe of a run besides the world itself: the messages
of `SLV2_ERROR` and `SLV2_WARN`, the storages created, the directories probed
with `opendir`. -/
inductive Event where
  | error_bundle_not_uri
  | warn_no_trees
  | new_storage (backend : Backend)
  | opendir (path : CStr)
  deriving DecidableEq, Repr

/-- The part of `struct _SLV2World` the loader works on: the global model, the
two registries, and with them the function-static flag `warned` of
`slv2_world_new_storage` and the log of observable events. -/
structure World where
  model : List Triple
  plugin_classes : List PluginClass
  plugins : List Plugin
  warned : Bool
  log : List Event
  deriving DecidableEq, Repr

/-- The node `world->rdf_a_node`. -/
def rdf_a_node : Node := .resource (cstr "http://www.w3.org/1999/02/22-rdf-syntax-ns#type")

/-- The node `world->lv2_plugin_node`. -/
def lv2_plugin_node : Node := .resource (cstr "http://lv2plug.in/ns/lv2core#Plugin")

/-- The node `world->lv2_specification_node`. -/
def lv2_specification_node : Node :=
  .resource (cstr "http://lv2plug.in/ns/lv2core#Specification")

/-- The predicate `SLV2_NS_RDFS "seeAlso"`. -/
def rdfs_seeAlso_node : Node :=
  .resource (cstr "http://www.w3.org/2000/01/rdf-schema#seeAlso")

/-- The predicate `SLV2_NS_SLV2 "bundleURI"`. -/
def slv2_bundleURI_node : Node := .resource (cstr "http://drobilla.net/ns/slv2#bundleURI")

/-- The class `dynman:DynManifest` of the extension query. -/
def dynman_DynManifest_node : Node :=
  .resource (cstr "http://lv2plug.in/ns/ext/dynmanifest#DynManifest")

/-- The predicate `:binary` of the extension query. -/
def lv2_binary_node : Node := .resource (cstr "http://lv2plug.in/ns/lv2core#binary")

/-- Function `slv2_world_new_storage`: the "trees" storage, or, when librdf
cannot create it, a warning and the "hashes" storage. The flag `warned` is
set; nothing reads it. -/
def slv2_world_new_storage (trees_ok : Bool) (world : World) : World :=
  if trees_ok then
    { world with log := world.log ++ [Event.new_storage Backend.trees] }
  else
    { world with
      warned := true
      log := world.log ++ [Event.warn_no_trees, Event.new_storage Backend.hashes] }

/-- Library call `librdf_model_add`: a statement already in the model is not
added again. -/
def librdf_model_add (model : List Triple) (t : Triple) : List Triple :=
  if t ∈ model then model else model ++ [t]

/-- Library call `librdf_model_add_statements`: every statement of the stream is
added. -/
def librdf_model_add_statements (model : List Triple) (stream : List Triple) : List Triple :=
  stream.foldl librdf_model_add model

/-- Library call `librdf_model_find_statements` for a pattern whose subject is
NULL: the statements with the given predicate and object. -/
def librdf_model_find_statements (model : List Triple) (predicate object : Node) :
    List Triple :=
  model.filter (fun t => decide (t.predicate = predicate ∧ t.object = object))

/-- The rows of the extension query of `slv2_world_load_bundle`
(`?dynman a dynman:DynManifest ; :binary ?binary`), as the binding `?binary`
of each row. -/
def dyn_manifest_query (manifest_model : List Triple) : List Node :=
  (librdf_model_find_statements manifest_model rdf_a_node dynman_DynManifest_node).flatMap
    (fun d => (manifest_model.filter
      (fun t => decide (t.subject = d.subject ∧ t.predicate = lv2_binary_node))).map
        (fun t => t.object))

/-- The body of the loop over the extension binaries in `slv2_world_load_bundle`:
a binary that is no resource, has no path, does not load or lacks
`lv2_dyn_manifest_get_subjects` is skipped; otherwise its subjects are parsed
into a second temporary model, every plugin of that model gets a `rdfs:seeAlso`
to the binary in the manifest model, and the second model is merged in. -/
def load_dyn_manifest (env : Env) (bundle_uri : CStr) (state : World × List Triple)
    (binary_node : Node) : World × List Triple :=
  match librdf_node_get_uri binary_node with
  | none => state
  | some lib_uri =>
    match env.slv2_uri_to_path lib_uri with
    | none => state
    | some lib_path =>
      match env.dlopen (some lib_path) with
      | none => state
      | some lib =>
        match lib.get_subjects with
        | none => state
        | some get_subjects_func =>
          let world := slv2_world_new_storage env.trees_ok state.1
          let dyn_manifest_model := librdf_model_add_statements [] (get_subjects_func bundle_uri)
          let manifest_model :=
            (librdf_model_find_statements dyn_manifest_model rdf_a_node lv2_plugin_node).foldl
              (fun m s => librdf_model_add m ⟨s.subject, rdfs_seeAlso_node, binary_node⟩)
              state.2
          (world, librdf_model_add_statements manifest_model dyn_manifest_model)

/-- The two statements `slv2_world_load_bundle` adds to the global model for the
subject of a matching statement: `rdfs:seeAlso <manifest.ttl>` and
`slv2:bundleURI <bundle>`. -/
def add_bundle_links (manifest_uri bundle_uri : CStr) (model : List Triple) (s : Triple) :
    List Triple :=
  librdf_model_add
    (librdf_model_add model ⟨s.subject, rdfs_seeAlso_node, .resource manifest_uri⟩)
    ⟨s.subject, slv2_bundleURI_node, .resource bundle_uri⟩

/-- Function `slv2_world_load_bundle`. -/
def slv2_world_load_bundle (env : Env) (world : World) (bundle_uri : SLV2Value) : World :=
  match bundle_uri with
  | .literal _ =>
    -- !slv2_value_is_uri(bundle_uri)
    { world with log := world.log ++ [Event.error_bundle_not_uri] }
  | .uri uri_val =>
    let manifest_uri := env.relative_to_base uri_val (cstr "manifest.ttl")
    -- Parse the manifest into a temporary model
    let world := slv2_world_new_storage env.trees_ok world
    let manifest_model := librdf_model_add_statements [] (env.parse manifest_uri)
    let state :=
      if env.SLV2_DYN_MANIFEST then
        (dyn_manifest_query manifest_model).foldl (load_dyn_manifest env uri_val)
          (world, manifest_model)
      else (world, manifest_model)
    let world := state.1
    let manifest_model := state.2
    -- ?plugin a lv2:Plugin
    let model :=
      (librdf_model_find_statements manifest_model rdf_a_node lv2_plugin_node).foldl
        (add_bundle_links manifest_uri uri_val) world.model
    -- ?specification a lv2:Specification
    let model :=
      (librdf_model_find_statements manifest_model rdf_a_node lv2_specification_node).foldl
        (add_bundle_links manifest_uri uri_val) model
    -- Join the temporary model to the main model
    { world with model := librdf_model_add_statements model manifest_model }

/-! ## The path scanner -/

/-- The byte `':'`. -/
def colon : Nat := 58

/-- The byte `'X'`. -/
def letter_X : Nat := 88

/-- The directory entry `"."`. -/
def dot : CStr := [46]

/-- The directory entry `".."`. -/
def dotdot : CStr := [46, 46]

/-- The string `"file://"`. -/
def file_scheme : CStr := [102, 105, 108, 101, 58, 47, 47]

/-- The string `"/"`. -/
def slash : CStr := [47]

/-- The body of the `readdir` loop of `slv2_world_load_directory` for one entry
name: `.` and `..` are passed over; for any other entry the URI
`file://dir/name/` is built, the directory `uri + 7` is probed with `opendir`,
and if that succeeds the bundle is loaded. -/
def load_directory_entry (env : Env) (dir : CStr) (world : World) (d_name : CStr) : World :=
  if decide (strcmp d_name dot = 0) || decide (strcmp d_name dotdot = 0) then
    world
  else
    let uri := file_scheme ++ dir ++ slash ++ d_name ++ slash
    let world := { world with log := world.log ++ [Event.opendir (uri.drop 7)] }
    match env.opendir (uri.drop 7) with
    | some _ => slv2_world_load_bundle env world (SLV2Value.uri uri)
    | none => world

/-- Function `slv2_world_load_directory`: a directory that cannot be opened is
passed over, otherwise each of its entries is handled in `readdir` order. -/
def slv2_world_load_directory (env : Env) (world : World) (dir : CStr) : World :=
  let world := { world with log := world.log ++ [Event.opendir dir] }
  match env.opendir dir with
  | none => world
  | some entries => entries.foldl (load_directory_entry env dir) world

/-- Library call `strchr` on the C string at the start of a buffer: the offset
of the first byte equal to `c` before the terminating NUL. -/
def strchr : List Nat → Nat → Option Nat
  | [], _ => none
  | b :: bs, c =>
    if b = c then some 0 else if b = 0 then none else (strchr bs c).map (fun i => i + 1)

/-- The C string that starts at offset `i` of a buffer. -/
def cstr_at (buf : List Nat) (i : Nat) : CStr :=
  (buf.drop i).takeWhile (fun b => decide (b ≠ 0))

/-- The `while` loop of `slv2_world_load_path` on the buffer `path` with the
pointer `dir` as an offset into it: the first `':'` is overwritten with NUL,
the string at `dir` is scanned, the NUL is overwritten with `'X'`, and `dir`
moves behind it. The first argument bounds the number of iterations. -/
def load_path_loop (env : Env) : Nat → World → List Nat → Nat → Option World
  | 0, _, _, _ => none
  | fuel + 1, world, path, dir =>
    match strchr path colon with
    | none => some world
    | some delim =>
      let world := slv2_world_load_directory env world (cstr_at (path.set delim 0) dir)
      load_path_loop env fuel world (path.set delim letter_X) (delim + 1)

/-- Function `slv2_world_load_path`: the buffer is `lv2_path` followed by `":"`
and the terminating NUL. One iteration per byte of the buffer is allowed for. -/
def slv2_world_load_path (env : Env) (world : World) (lv2_path : CStr) : Option World :=
  load_path_loop env (lv2_path.length + 2) world (lv2_path ++ [colon] ++ [0]) 0

/-! ## The filter accessor -/

/-- The `for` loop of `slv2_world_get_plugins_by_filter` from index `i` for the predicate
`include`, with
`todo` iterations left to the sequence size. -/
def get_plugins_by_filter_loop (plugins : List Plugin) (incl : Plugin → Bool) :
    Nat → Nat → List Plugin → List Plugin
  | 0, _, result => result
  | todo + 1, i, result =>
    match plugins.get? i with
    | some p =>
      get_plugins_by_filter_loop plugins incl todo (i + 1)
        (if incl p then result ++ [p] else result)
    | none => result

/-- Function `slv2_world_get_plugins_by_filter`: the new sequence, together with
the world as the call leaves it. -/
def slv2_world_get_plugins_by_filter (world : World) (incl : Plugin → Bool) :
    List Plugin × World :=
  (get_plugins_by_filter_loop world.plugins incl world.plugins.length 0 [], world)

/-! ## The merge in general -/
/-- The Sorted-Stream Merge of the design, for a registry of any element type:
`key` reads the URI of an element, `new` is the candidate element for the key
`k` of the row, and `upd` is what the row does to the element it resolves to. -/
def merge_row {α : Type} (key : α → CStr) (upd : α → α) (new : α) (k : CStr)
    (reg : List α) : List α :=
  match reg.head?, reg.getLast? with
  | some first, some prev =>
    if k = key prev then reg.dropLast ++ [upd prev]
    else if strcmp (key prev) k < 0 then reg ++ [upd new]
    else if strcmp (key first) k > 0 then upd new :: reg
    else
      match reg.find? (fun a => decide (key a = k)) with
      | some _ => update_found (fun a => decide (key a = k)) upd reg
      | none => raptor_sequence_sort (fun a b => strcmp (key a) (key b)) (reg ++ [upd new])
  | _, _ => reg ++ [upd new]

/-- A registry is strictly ascending by key under `strcmp`. -/
def Ascending {α : Type} (key : α → CStr) (reg : List α) : Prop :=
  reg.Pairwise (fun a b => strcmp (key a) (key b) < 0)

/-- The key of a class row that carries the required bindings. -/
def class_row_key (row : ClassRow) : Option CStr :=
  match librdf_node_get_uri row.class_node, librdf_node_get_uri row.parent_node with
  | some class_uri, some _ => some class_uri
  | _, _ => none

/-- The key of a plugin row that carries the required bindings. -/
def plugin_row_key (row : PluginRow) : Option CStr :=
  match librdf_node_get_uri row.plugin_node, librdf_node_get_uri row.data_node with
  | some plugin_uri, some _ => some plugin_uri
  | _, _ => none

/-- The distinct keys of a stream in ascending `strcmp` order. -/
def sorted_distinct_keys (keys : List CStr) : List CStr :=
  List.insertionSort (fun a b => strcmp a b ≤ 0) keys.dedup

/-- The data resource a plugin row contributes to the plugin with URI `k`: the
row carries the required bindings and its key is `k`. -/
def row_data_for (k : CStr) (row : PluginRow) : Option CStr :=
  match librdf_node_get_uri row.plugin_node, librdf_node_get_uri row.data_node with
  | some plugin_uri, some data_uri => if plugin_uri = k then some data_uri else none
  | _, _ => none

/-- A build without `SLV2_DYN_MANIFEST` in surroundings where no resource
parses to a triple and no directory or library opens; relative URIs are
resolved by appending to the base. -/
def bare_env : Env :=
  { SLV2_DYN_MANIFEST := false
    trees_ok := true
    parse := fun _ => []
    relative_to_base := fun base rel => base ++ rel
    slv2_uri_to_path := fun _ => none
    dlopen := fun _ => none
    opendir := fun _ => none }

/-- The invariant of the plugin fold with respect to the rows folded so far:
the registry is ascending, every plugin carries the data resources of its rows
in arrival order and no extension resource, and a key without a plugin has no
row. -/
def DataInv (pre : List PluginRow) (plugins : List Plugin) : Prop :=
  Ascending Plugin.plugin_uri plugins ∧
    (∀ p ∈ plugins, p.data_uris = pre.filterMap (row_data_for p.plugin_uri) ∧
      p.dynman_uri = none) ∧
    ∀ k, (∀ p ∈ plugins, p.plugin_uri ≠ k) → pre.filterMap (row_data_for k) = []

/-- The invariant of the class fold with respect to the rows folded so far: the
registry is ascending, every class carries the parent and the label of the
first row with its URI, and a key without a class has no row. -/
def ClassInv (pre : List ClassRow) (classes : List PluginClass) : Prop :=
  Ascending PluginClass.uri classes ∧
    (∀ c ∈ classes, ∃ r0,
      pre.find? (fun r => decide (class_row_key r = some c.uri)) = some r0 ∧
        c.parent_uri = librdf_node_get_uri r0.parent_node ∧
        c.label = librdf_node_get_literal_value r0.label_node) ∧
    ∀ k, (∀ c ∈ classes, c.uri ≠ k) → ∀ r ∈ pre, class_row_key r ≠ some k

/-- The world as `slv2_world_new` leaves it: an empty model, empty registries,
nothing logged. -/
def empty_world : World :=
  { model := [], plugin_classes := [], plugins := [], warned := false, log := [] }

/-- Surroundings with one search directory `a` that holds the entries `.`,
`..`, the bundle directory `x` and the plain file `f`; the manifest of the
bundle declares the plugin `p`. Built without `SLV2_DYN_MANIFEST`. -/
def bundle_env : Env :=
  { SLV2_DYN_MANIFEST := false
    trees_ok := true
    parse := fun uri =>
      if uri = file_scheme ++ [97, 47, 120, 47] ++ cstr "manifest.ttl" then
        [⟨.resource [112], rdf_a_node, lv2_plugin_node⟩]
      else []
    relative_to_base := fun base rel => base ++ rel
    slv2_uri_to_path := fun uri => if uri.take 7 = file_scheme then some (uri.drop 7) else none
    dlopen := fun _ => none
    opendir := fun path =>
      if path = [97] then some [dot, dotdot, [120], [102]]
      else if path = [97, 47, 120, 47] then some []
      else none }

/-- Whether the loop over the extension binaries gets a library for a binary
node: the node is a resource, its URI has a path, and `dlopen` of that path
succeeds. -/
def binary_loads (env : Env) (binary_node : Node) : Bool :=
  match librdf_node_get_uri binary_node with
  | none => false
  | some lib_uri =>
    match env.slv2_uri_to_path lib_uri with
    | none => false
    | some lib_path => (env.dlopen (some lib_path)).isSome

/-- The rows of the plugin query of `slv2_world_load_all`
(`?plugin a :Plugin ; slv2:bundleURI ?bundle ; rdfs:seeAlso ?data`) on a
model, one row per matching combination of statements. -/
def plugin_query (model : List Triple) : List PluginRow :=
  (librdf_model_find_statements model rdf_a_node lv2_plugin_node).flatMap (fun t =>
    (model.filter (fun b =>
      decide (b.subject = t.subject ∧ b.predicate = slv2_bundleURI_node))).flatMap (fun b =>
        (model.filter (fun d =>
          decide (d.subject = t.subject ∧ d.predicate = rdfs_seeAlso_node))).map (fun d =>
            { plugin_node := t.subject, data_node := d.object, bundle_node := b.object })))

/-- Surroundings built with `SLV2_DYN_MANIFEST` in which the manifest of the
bundle `file://a/x/` declares the plugin `p` and a dynamic manifest `m` whose
binary `file://a/x/l` cannot be loaded. -/
def dyn_env : Env :=
  { SLV2_DYN_MANIFEST := true
    trees_ok := true
    parse := fun uri =>
      if uri = file_scheme ++ [97, 47, 120, 47] ++ cstr "manifest.ttl" then
        [⟨.resource [112], rdf_a_node, lv2_plugin_node⟩,
          ⟨.resource [109], rdf_a_node, dynman_DynManifest_node⟩,
          ⟨.resource [109], lv2_binary_node,
            .resource (file_scheme ++ [97, 47, 120, 47, 108])⟩]
      else []
    relative_to_base := fun base rel => base ++ rel
    slv2_uri_to_path := fun uri => if uri.take 7 = file_scheme then some (uri.drop 7) else none
    dlopen := fun _ => none
    opendir := fun _ => none }

/-! ## The default search path of `slv2_world_load_all` -/

/-- The byte an allocation holds where nothing was written yet. -/
def junk : Nat := 170

/-- A store `*(buf + i) = v` into an allocated buffer; `none` when the offset
lies outside the buffer. -/
def write (buf : List Nat) (i v : Nat) : Option (List Nat) :=
  if i < buf.length then some (buf.set i v) else none

/-- Library call `strcpy (buf + off, word)`: the bytes of the word and the
terminating NUL are stored one by one; `none` when one of them falls outside
the buffer. -/
def strcpy_at : List Nat → Nat → CStr → Option (List Nat)
  | buf, off, [] => write buf off 0
  | buf, off, c :: cs =>
    match write buf off c with
    | none => none
    | some buf => strcpy_at buf (off + 1) cs

/-- Library call `realloc`: the buffer with the new size, its old bytes kept as
far as they fit and the rest not yet written. -/
def realloc (buf : List Nat) (size : Nat) : List Nat :=
  buf.take size ++ List.replicate (size - buf.length) junk

/-- The body of the `for` loop over the words of one expansion in
`slv2_world_load_all`, on the pair `(lv2_path, lv2_path_len)`: the first word
is duplicated; any later word is appended behind a `':'` after the buffer was
resized to `lv2_path_len + word_len + 2`. The result is `none` when a store
falls outside the buffer. -/
def append_word (state : Option (List Nat) × Nat) (word : CStr) :
    Option (Option (List Nat) × Nat) :=
  let word_len := word.length
  match state.1 with
  | none =>
    -- lv2_path = strdup(p.we_wordv[i])
    some (some (word ++ [0]), word_len)
  | some lv2_path =>
    let lv2_path := realloc lv2_path (state.2 + word_len + 2)
    match write lv2_path state.2 colon with
    | none => none
    | some lv2_path =>
      match strcpy_at lv2_path (state.2 + 1) word with
      | none => none
      | some lv2_path => some (some lv2_path, state.2 + (word_len + 1))

/-- The `for` loop over the words `we_wordv[0 .. we_wordc)` of one expansion. -/
def append_words :
    Option (List Nat) × Nat → List CStr → Option (Option (List Nat) × Nat)
  | state, [] => some state
  | state, word :: rest =>
    match append_word state word with
    | none => none
    | some state => append_words state rest

/-- The `while (*dir != 0)` loop of `slv2_world_load_all` over the buffer
`default_path`, with the pointer `dir` as an offset: the segment up to the next
`':'` (overwritten with NUL) or to the end is expanded with `wordexp`, whose
words are appended to `lv2_path`; then `dir` moves behind the `':'`, or the
byte at `dir` is set to NUL. The first argument bounds the number of
iterations; the result is `none` when it is used up or a store or load falls
outside a buffer. -/
def default_path_loop (wordexp : CStr → List CStr) :
    Nat → List Nat → Nat → Option (List Nat) × Nat → Option (Option (List Nat) × Nat)
  | 0, _, _, _ => none
  | fuel + 1, default_path, dir, state =>
    match default_path.get? dir with
    | none => none
    | some b =>
      if b = 0 then some state
      else
        match strchr (default_path.drop dir) colon with
        | some off =>
          -- *colon = 0
          let default_path := default_path.set (dir + off) 0
          match append_words state (wordexp (cstr_at default_path dir)) with
          | none => none
          | some state => default_path_loop wordexp fuel default_path (dir + off + 1) state
        | none =>
          match append_words state (wordexp (cstr_at default_path dir)) with
          | none => none
          | some state => default_path_loop wordexp fuel (default_path.set dir 0) dir state

/-- The `else` branch of step 1 of `slv2_world_load_all` up to the call of
`slv2_world_load_path`: the pair `(lv2_path, lv2_path_len)` built from the
macro `SLV2_DEFAULT_LV2_PATH` (defined in `slv2-config.h`, absent from the
sources) with `lv2_path` NULL at the start. One iteration per byte of the
buffer is allowed for. -/
def load_all_default_path (wordexp : CStr → List CStr) (SLV2_DEFAULT_LV2_PATH : CStr) :
    Option (Option (List Nat) × Nat) :=
  default_path_loop wordexp (SLV2_DEFAULT_LV2_PATH.length + 1)
    (SLV2_DEFAULT_LV2_PATH ++ [0]) 0 (none, 0)

/-- Step 1 of `slv2_world_load_all` for the value `getenv ("LV2_PATH")`: an
explicit path is scanned as it is, otherwise the path built from the default
list. A NULL `lv2_path` handed to `slv2_world_load_path` has no defined
result. -/
def load_all_manifests (env : Env) (wordexp : CStr → List CStr)
    (SLV2_DEFAULT_LV2_PATH : CStr) (lv2_path : Option CStr) (world : World) : Option World :=
  match lv2_path with
  | some lv2_path => slv2_world_load_path env world lv2_path
  | none =>
    match load_all_default_path wordexp SLV2_DEFAULT_LV2_PATH with
    | none => none
    | some (none, _) => none
    | some (some lv2_path, _) => slv2_world_load_path env world (cstr_at lv2_path 0)

/-- An expansion for examples: `~` gives the home directory `/h`, `x*` gives
the two matches `x1` and `x2`, `n*` and the empty string give no word, and
any other string gives itself. -/
def sample_wordexp (s : CStr) : List CStr :=
  if s = [126] then [[47, 104]]
  else if s = [120, 42] then [[120, 49], [120, 50]]
  else if s = [110, 42] then []
  else if s = [] then []
  else [s]

/-- Surroundings built with `SLV2_DYN_MANIFEST` in which the library at the
path `l` loads. -/
def ext_env : Env :=
  { SLV2_DYN_MANIFEST := true
    trees_ok := false
    parse := fun _ => []
    relative_to_base := fun base rel => base ++ rel
    slv2_uri_to_path := fun uri => if uri.take 7 = file_scheme then some (uri.drop 7) else none
    dlopen := fun path => if path = some [108] then some ⟨false, none⟩ else none
    opendir := fun _ => none }

/-- Surroundings built with `SLV2_DYN_MANIFEST` in which the library at the
path `l` loads and nothing else does; the manifest of the bundle `file://a/x/`
declares the plugin `p` and a dynamic manifest `m` whose binary `file://a/x/k`
cannot be loaded. -/
def mixed_env : Env :=
  { SLV2_DYN_MANIFEST := true
    trees_ok := true
    parse := fun uri =>
      if uri = file_scheme ++ [97, 47, 120, 47] ++ cstr "manifest.ttl" then
        [⟨.resource [112], rdf_a_node, lv2_plugin_node⟩,
          ⟨.resource [109], rdf_a_node, dynman_DynManifest_node⟩,
          ⟨.resource [109], lv2_binary_node,
            .resource (file_scheme ++ [97, 47, 120, 47, 107])⟩]
      else []
    relative_to_base := fun base rel => base ++ rel
    slv2_uri_to_path := fun uri => if uri.take 7 = file_scheme then some (uri.drop 7) else none
    dlopen := fun path => if path = some [108] then some ⟨false, none⟩ else none
    opendir := fun _ => none }

/-- A world whose global model already holds the plugin `A` of the bundle
`file://b/`, with the library `file://l` as its data resource, as an earlier
bundle with a working extension binary leaves it. -/
def world_with_extension_plugin : World :=
  { model :=
      [⟨.resource [65], rdf_a_node, lv2_plugin_node⟩,
        ⟨.resource [65], slv2_bundleURI_node, .resource (file_scheme ++ [98, 47])⟩,
        ⟨.resource [65], rdfs_seeAlso_node, .resource (file_scheme ++ [108])⟩]
    plugin_classes := []
    plugins := []
    warned := false
    log := [] }

/-! ## The order of `strcmp` -/

theorem strcmp_self (a : CStr) : strcmp a a = 0 := by
  induction a with
  | nil => rfl
  | cons x xs ih => simp [strcmp, ih]

theorem strcmp_eq_zero {a b : CStr} (h : strcmp a b = 0) : a = b := by
  induction a generalizing b with
  | nil => cases b with
    | nil => rfl
    | cons y ys => simp [strcmp] at h
  | cons x xs ih => cases b with
    | nil => simp [strcmp] at h
    | cons y ys =>
      simp only [strcmp] at h
      split_ifs at h with h1 h2
      all_goals first
        | omega
        | (have hxy : x = y := by omega
           rw [hxy, ih h])

theorem strcmp_eq_zero_iff (a b : CStr) : strcmp a b = 0 ↔ a = b :=
  ⟨strcmp_eq_zero, fun h => h ▸ strcmp_self a⟩

theorem strcmp_swap (a b : CStr) : strcmp b a = - strcmp a b := by
  induction a generalizing b with
  | nil => cases b <;> simp [strcmp]
  | cons x xs ih => cases b with
    | nil => simp [strcmp]
    | cons y ys =>
      simp only [strcmp]
      split_ifs <;> first | omega | simp | exact ih ys

theorem strcmp_neg_trans {a b c : CStr} (h1 : strcmp a b < 0) (h2 : strcmp b c < 0) :
    strcmp a c < 0 := by
  induction a generalizing b c with
  | nil => cases c with
    | nil => cases b <;> simp [strcmp] at h1 h2
    | cons z zs => simp [strcmp]
  | cons x xs ih => cases b with
    | nil => simp [strcmp] at h1
    | cons y ys => cases c with
      | nil => simp [strcmp] at h2
      | cons z zs =>
        simp only [strcmp] at h1 h2 ⊢
        split_ifs at h1 h2 ⊢ <;> first | omega | exact ih h1 h2

theorem strcmp_nonpos_iff (a b : CStr) : strcmp a b ≤ 0 ↔ strcmp a b < 0 ∨ a = b := by
  rw [← strcmp_eq_zero_iff]; omega

theorem strcmp_nonpos_trans {a b c : CStr} (h1 : strcmp a b ≤ 0) (h2 : strcmp b c ≤ 0) :
    strcmp a c ≤ 0 := by
  rcases (strcmp_nonpos_iff a b).1 h1 with h | h
  · rcases (strcmp_nonpos_iff b c).1 h2 with h' | h'
    · exact le_of_lt (strcmp_neg_trans h h')
    · rw [← h']; exact h1
  · rw [h]; exact h2

/-! ## The merge on an ascending registry -/

section merge
variable {α : Type} {key : α → CStr} {upd : α → α}

theorem Ascending.nodup_keys {reg : List α} (h : Ascending key reg) :
    (reg.map key).Nodup := by
  unfold Ascending at h
  rw [List.Nodup, List.pairwise_map]
  refine h.imp ?_
  intro a b hab heq
  rw [heq, strcmp_self] at hab
  exact absurd hab (lt_irrefl _)

theorem map_key_update_found (hupd : ∀ a, key (upd a) = key a) (hit : α → Bool)
    (reg : List α) : (update_found hit upd reg).map key = reg.map key := by
  induction reg with
  | nil => rfl
  | cons x xs ih =>
    simp only [update_found]
    split_ifs
    · simp [hupd]
    · simp [ih]

theorem ascending_of_map_key_eq {β : Type} {key2 : β → CStr} {l : List α} {m : List β}
    (h : m.map key2 = l.map key) (hl : Ascending key l) : Ascending key2 m := by
  unfold Ascending at hl ⊢
  rw [← List.pairwise_map (f := key2) (R := fun x y => strcmp x y < 0), h, List.pairwise_map]
  exact hl

theorem update_found_concat (hit : α → Bool) (f : α → α) (init : List α) (prev : α)
    (hinit : ∀ a ∈ init, hit a = false) (hprev : hit prev = true) :
    update_found hit f (init ++ [prev]) = init ++ [f prev] := by
  induction init with
  | nil => simp [update_found, hprev]
  | cons x xs ih =>
    have hx : hit x = false := hinit x (List.mem_cons_self _ _)
    simp only [List.cons_append, update_found, hx]
    simp [ih (fun a ha => hinit a (List.mem_cons_of_mem _ ha))]

theorem update_found_id (hit : α → Bool) (reg : List α) :
    update_found hit id reg = reg := by
  induction reg with
  | nil => rfl
  | cons x xs ih => simp [update_found, ih]

theorem mem_update_found {k : CStr} {reg : List α} (hnd : (reg.map key).Nodup) (a : α) :
    a ∈ update_found (fun b => decide (key b = k)) upd reg ↔
      (a ∈ reg ∧ key a ≠ k) ∨ ∃ b ∈ reg, key b = k ∧ a = upd b := by
  induction reg with
  | nil => simp [update_found]
  | cons x xs ih =>
    rw [List.map_cons, List.nodup_cons] at hnd
    simp only [update_found]
    by_cases hx : key x = k
    · have hxs : ∀ b ∈ xs, key b ≠ k := by
        intro b hb hbk
        exact hnd.1 (List.mem_map.2 ⟨b, hb, hbk.trans hx.symm⟩)
      simp only [hx, decide_True, if_true, List.mem_cons]
      constructor
      · rintro (h | h)
        · exact Or.inr ⟨x, Or.inl rfl, hx, h⟩
        · exact Or.inl ⟨Or.inr h, hxs a h⟩
      · rintro (⟨h | h, hne⟩ | ⟨b, hb | hb, hbk, hab⟩)
        · exact absurd (h ▸ hx) hne
        · exact Or.inr h
        · exact Or.inl (hb ▸ hab)
        · exact absurd hbk (hxs b hb)
    · simp only [hx, decide_False, Bool.false_eq_true, if_false, List.mem_cons, ih hnd.2]
      constructor
      · rintro (h | ⟨h, hne⟩ | ⟨b, hb, hbk, hab⟩)
        · exact Or.inl ⟨Or.inl h, h ▸ hx⟩
        · exact Or.inl ⟨Or.inr h, hne⟩
        · exact Or.inr ⟨b, Or.inr hb, hbk, hab⟩
      · rintro (⟨h | h, hne⟩ | ⟨b, hb | hb, hbk, hab⟩)
        · exact Or.inl h
        · exact Or.inr (Or.inl ⟨h, hne⟩)
        · exact absurd (hb ▸ hbk) hx
        · exact Or.inr (Or.inr ⟨b, hb, hbk, hab⟩)

end merge

section merge
variable {α : Type} {key : α → CStr} {upd : α → α}

theorem ascending_sort {l : List α} (hnd : (l.map key).Nodup) :
    Ascending key (raptor_sequence_sort (fun a b => strcmp (key a) (key b)) l) := by
  unfold raptor_sequence_sort Ascending
  haveI : IsTotal α (fun a b => strcmp (key a) (key b) ≤ 0) :=
    ⟨fun a b => by
      have := strcmp_swap (key a) (key b)
      show strcmp (key a) (key b) ≤ 0 ∨ strcmp (key b) (key a) ≤ 0
      omega⟩
  haveI : IsTrans α (fun a b => strcmp (key a) (key b) ≤ 0) :=
    ⟨fun a b c hab hbc => strcmp_nonpos_trans hab hbc⟩
  have hs := List.sorted_insertionSort (fun a b => strcmp (key a) (key b) ≤ 0) l
  have hp := List.perm_insertionSort (fun a b => strcmp (key a) (key b) ≤ 0) l
  have hnd2 := (hp.map key).nodup_iff.2 hnd
  rw [List.Nodup, List.pairwise_map] at hnd2
  refine (List.Pairwise.and hs hnd2).imp ?_
  rintro a b ⟨h1, h2⟩
  rcases (strcmp_nonpos_iff _ _).1 h1 with h | h
  · exact h
  · exact absurd h h2

theorem ascending_concat {reg : List α} {x : α} (h : Ascending key reg)
    (hx : ∀ a ∈ reg, strcmp (key a) (key x) < 0) : Ascending key (reg ++ [x]) := by
  unfold Ascending at h ⊢
  rw [List.pairwise_append]
  refine ⟨h, List.pairwise_singleton _ _, ?_⟩
  intro a ha b hb
  rw [List.mem_singleton] at hb
  rw [hb]; exact hx a ha

theorem ascending_cons {reg : List α} {x : α} (h : Ascending key reg)
    (hx : ∀ a ∈ reg, strcmp (key x) (key a) < 0) : Ascending key (x :: reg) :=
  List.pairwise_cons.2 ⟨hx, h⟩

/-- In an ascending registry every key is at most the key of the last element. -/
theorem ascending_le_last {init : List α} {prev : α} (h : Ascending key (init ++ [prev])) :
    ∀ a ∈ init ++ [prev], strcmp (key a) (key prev) ≤ 0 := by
  intro a ha
  rcases List.mem_append.1 ha with ha | ha
  · exact le_of_lt ((List.pairwise_append.1 h).2.2 a ha prev (List.mem_singleton_self _))
  · rw [List.mem_singleton.1 ha, strcmp_self]

/-- In an ascending registry every key is at least the key of the first element. -/
theorem ascending_first_le {first : α} {tl : List α} (h : Ascending key (first :: tl)) :
    ∀ a ∈ first :: tl, strcmp (key first) (key a) ≤ 0 := by
  intro a ha
  rcases List.mem_cons.1 ha with ha | ha
  · rw [ha, strcmp_self]
  · exact le_of_lt (List.rel_of_pairwise_cons h ha)

theorem strcmp_neg_of_neg_of_nonpos {a b c : CStr} (h1 : strcmp a b < 0) (h2 : strcmp b c ≤ 0) :
    strcmp a c < 0 := by
  rcases (strcmp_nonpos_iff b c).1 h2 with h | h
  · exact strcmp_neg_trans h1 h
  · rw [← h]; exact h1

theorem strcmp_neg_of_nonpos_of_neg {a b c : CStr} (h1 : strcmp a b ≤ 0) (h2 : strcmp b c < 0) :
    strcmp a c < 0 := by
  rcases (strcmp_nonpos_iff a b).1 h1 with h | h
  · exact strcmp_neg_trans h h2
  · rw [h]; exact h2

theorem strcmp_ne_of_neg {a b : CStr} (h : strcmp a b < 0) : a ≠ b := by
  intro hab
  rw [hab, strcmp_self] at h
  exact lt_irrefl _ h

/-- The merge on an ascending registry that holds the key of the row: the
element with that key is updated in place. -/
theorem merge_row_found {reg : List α} {k : CStr} (new : α) (h : Ascending key reg)
    (hk : ∃ b ∈ reg, key b = k) :
    merge_row key upd new k reg = update_found (fun a => decide (key a = k)) upd reg := by
  obtain ⟨b, hb, hbk⟩ := hk
  rcases List.eq_nil_or_concat reg with hnil | ⟨init, prev, hreg⟩
  · rw [hnil] at hb; exact absurd hb (List.not_mem_nil _)
  rw [List.concat_eq_append] at hreg
  obtain ⟨first, tl, hreg2⟩ : ∃ first tl, reg = first :: tl := by
    cases reg with
    | nil => simp at hreg
    | cons x xs => exact ⟨x, xs, rfl⟩
  have hlast : reg.getLast? = some prev := by rw [hreg]; exact List.getLast?_concat _
  have hhead : reg.head? = some first := by rw [hreg2]; rfl
  have hle := ascending_le_last (hreg ▸ h) b (hreg ▸ hb)
  have hge := ascending_first_le (hreg2 ▸ h) b (hreg2 ▸ hb)
  rw [hbk] at hle hge
  simp only [merge_row, hhead, hlast]
  by_cases h1 : k = key prev
  · rw [if_pos h1]
    have hinit : ∀ a ∈ init, decide (key a = k) = false := by
      intro a ha
      have := (List.pairwise_append.1 (hreg ▸ h)).2.2 a ha prev (List.mem_singleton_self _)
      simpa [h1] using strcmp_ne_of_neg this
    rw [hreg, List.dropLast_concat,
      update_found_concat _ _ init prev hinit (by simp [h1])]
  · rw [if_neg h1]
    have h2 : ¬ strcmp (key prev) k < 0 := by
      have := strcmp_swap (key prev) k
      omega
    have h3 : ¬ strcmp (key first) k > 0 := by omega
    rw [if_neg h2, if_neg h3]
    have hf : reg.find? (fun a => decide (key a = k)) ≠ none := by
      intro hnone
      have := List.find?_eq_none.1 hnone b hb
      simp [hbk] at this
    cases hfind : reg.find? (fun a => decide (key a = k)) with
    | none => exact absurd hfind hf
    | some x => rfl

/-- The merge on an ascending registry that lacks the key of the row: the new
element joins the elements of the registry. -/
theorem merge_row_fresh {reg : List α} {k : CStr} (new : α)
    (hk : ∀ b ∈ reg, key b ≠ k) :
    (merge_row key upd new k reg).Perm (upd new :: reg) := by
  rcases List.eq_nil_or_concat reg with hnil | ⟨init, prev, hreg⟩
  · rw [hnil]; simp [merge_row]
  rw [List.concat_eq_append] at hreg
  obtain ⟨first, tl, hreg2⟩ : ∃ first tl, reg = first :: tl := by
    cases reg with
    | nil => simp at hreg
    | cons x xs => exact ⟨x, xs, rfl⟩
  have hlast : reg.getLast? = some prev := by rw [hreg]; exact List.getLast?_concat _
  have hhead : reg.head? = some first := by rw [hreg2]; rfl
  have hprev : prev ∈ reg := by rw [hreg]; simp
  simp only [merge_row, hhead, hlast]
  rw [if_neg (fun h1 => hk prev hprev h1.symm)]
  split_ifs
  · exact List.perm_append_singleton _ _
  · exact List.Perm.refl _
  · cases hfind : reg.find? (fun a => decide (key a = k)) with
    | some x =>
      have h1 := List.mem_of_find?_eq_some hfind
      have h2 := List.find?_some hfind
      exact absurd (by simpa using h2) (hk x h1)
    | none =>
      exact (List.perm_insertionSort _ _).trans (List.perm_append_singleton _ _)

/-- The merge keeps an ascending registry ascending. -/
theorem ascending_merge_row {reg : List α} {k : CStr} {new : α} (h : Ascending key reg)
    (hnew : key new = k) (hupd : ∀ a, key (upd a) = key a) :
    Ascending key (merge_row key upd new k reg) := by
  by_cases hk : ∃ b ∈ reg, key b = k
  · rw [merge_row_found new h hk]
    exact ascending_of_map_key_eq (map_key_update_found hupd _ reg) h
  have hk2 : ∀ b ∈ reg, key b ≠ k := fun b hb hbk => hk ⟨b, hb, hbk⟩
  have hkn : key (upd new) = k := by rw [hupd, hnew]
  rcases List.eq_nil_or_concat reg with hnil | ⟨init, prev, hreg⟩
  · rw [hnil]; simp [merge_row, Ascending]
  rw [List.concat_eq_append] at hreg
  obtain ⟨first, tl, hreg2⟩ : ∃ first tl, reg = first :: tl := by
    cases reg with
    | nil => simp at hreg
    | cons x xs => exact ⟨x, xs, rfl⟩
  have hlast : reg.getLast? = some prev := by rw [hreg]; exact List.getLast?_concat _
  have hhead : reg.head? = some first := by rw [hreg2]; rfl
  have hprev : prev ∈ reg := by rw [hreg]; simp
  simp only [merge_row, hhead, hlast]
  rw [if_neg (fun h1 => hk2 prev hprev h1.symm)]
  split_ifs with h2 h3
  · refine ascending_concat h ?_
    intro a ha
    rw [hkn]
    exact strcmp_neg_of_nonpos_of_neg (ascending_le_last (hreg ▸ h) a (hreg ▸ ha)) h2
  · refine ascending_cons h ?_
    intro a ha
    rw [hkn]
    have h4 : strcmp k (key first) < 0 := by
      have := strcmp_swap (key first) k
      omega
    exact strcmp_neg_of_neg_of_nonpos h4 (ascending_first_le (hreg2 ▸ h) a (hreg2 ▸ ha))
  · cases hfind : reg.find? (fun a => decide (key a = k)) with
    | some x =>
      exact absurd (by simpa using List.find?_some hfind)
        (hk2 x (List.mem_of_find?_eq_some hfind))
    | none =>
      refine ascending_sort ?_
      rw [List.map_append, List.map_singleton, hkn]
      refine List.Nodup.append h.nodup_keys (List.nodup_singleton _) ?_
      intro x hx hx2
      rw [List.mem_singleton] at hx2
      obtain ⟨b, hb, hbx⟩ := List.mem_map.1 hx
      exact hk2 b hb (hbx.trans hx2)

end merge

/-! ## The two folds as instances of the merge -/

theorem load_plugin_classes_row_valid {row : ClassRow} {k parent : CStr}
    (hk : librdf_node_get_uri row.class_node = some k)
    (hp : librdf_node_get_uri row.parent_node = some parent) (classes : List PluginClass) :
    load_plugin_classes_row classes row =
      merge_row PluginClass.uri id
        (slv2_plugin_class_new (some parent) k (librdf_node_get_literal_value row.label_node))
        k classes := by
  simp only [load_plugin_classes_row, merge_row, hk, hp]
  cases hh : classes.head? with
  | none => rfl
  | some first =>
    cases hl : classes.getLast? with
    | none => rfl
    | some prev =>
      simp only [id, update_found_id, slv2_plugin_classes_get_by_uri,
        List.dropLast_append_getLast? prev (by rw [hl]; rfl)]
      split_ifs
      · rfl
      · rfl
      · rfl
      · cases hf : List.find? (fun c => decide (c.uri = k)) classes with
        | none => rfl
        | some x => rfl

theorem load_plugin_classes_row_dropped {row : ClassRow} (h : class_row_key row = none)
    (classes : List PluginClass) : load_plugin_classes_row classes row = classes := by
  unfold class_row_key at h
  unfold load_plugin_classes_row
  cases hk : librdf_node_get_uri row.class_node with
  | none => rfl
  | some k =>
    cases hp : librdf_node_get_uri row.parent_node with
    | none => rfl
    | some p => simp [hk, hp] at h

theorem load_all_row_valid (env : Env) {row : PluginRow} {k d : CStr}
    (hk : librdf_node_get_uri row.plugin_node = some k)
    (hd : librdf_node_get_uri row.data_node = some d) (plugins : List Plugin) :
    load_all_row env plugins row =
      merge_row Plugin.plugin_uri (record_data env d)
        (slv2_plugin_new k (librdf_node_get_uri row.bundle_node)) k plugins := by
  simp only [load_all_row, merge_row, hk, hd]
  cases hh : plugins.head? with
  | none => rfl
  | some first =>
    cases hl : plugins.getLast? with
    | none => rfl
    | some prev =>
      simp only [slv2_plugins_get_by_uri]
      split_ifs
      · rfl
      · rfl
      · rfl
      · cases hf : List.find? (fun p => decide (p.plugin_uri = k)) plugins with
        | none => rfl
        | some x => rfl

theorem load_all_row_dropped (env : Env) {row : PluginRow} (h : plugin_row_key row = none)
    (plugins : List Plugin) : load_all_row env plugins row = plugins := by
  unfold plugin_row_key at h
  unfold load_all_row
  cases hk : librdf_node_get_uri row.plugin_node with
  | none => rfl
  | some k =>
    cases hp : librdf_node_get_uri row.data_node with
    | none => rfl
    | some p => simp [hk, hp] at h

theorem plugin_uri_record_data (env : Env) (d : CStr) (p : Plugin) :
    (record_data env d p).plugin_uri = p.plugin_uri := by
  unfold record_data
  split_ifs <;> rfl

theorem ascending_load_plugin_classes_row {classes : List PluginClass}
    (h : Ascending PluginClass.uri classes) (row : ClassRow) :
    Ascending PluginClass.uri (load_plugin_classes_row classes row) := by
  cases hk : librdf_node_get_uri row.class_node with
  | none => rw [load_plugin_classes_row_dropped (by simp [class_row_key, hk])]; exact h
  | some k =>
    cases hp : librdf_node_get_uri row.parent_node with
    | none => rw [load_plugin_classes_row_dropped (by simp [class_row_key, hk, hp])]; exact h
    | some p =>
      rw [load_plugin_classes_row_valid hk hp]
      exact ascending_merge_row h rfl (fun _ => rfl)

theorem ascending_load_all_row (env : Env) {plugins : List Plugin}
    (h : Ascending Plugin.plugin_uri plugins) (row : PluginRow) :
    Ascending Plugin.plugin_uri (load_all_row env plugins row) := by
  cases hk : librdf_node_get_uri row.plugin_node with
  | none => rw [load_all_row_dropped env (by simp [plugin_row_key, hk])]; exact h
  | some k =>
    cases hp : librdf_node_get_uri row.data_node with
    | none => rw [load_all_row_dropped env (by simp [plugin_row_key, hk, hp])]; exact h
    | some p =>
      rw [load_all_row_valid env hk hp]
      exact ascending_merge_row h rfl (plugin_uri_record_data env p)

theorem ascending_load_plugin_classes {classes : List PluginClass}
    (h : Ascending PluginClass.uri classes) (rows : List ClassRow) :
    Ascending PluginClass.uri (slv2_world_load_plugin_classes classes rows) := by
  unfold slv2_world_load_plugin_classes
  induction rows generalizing classes with
  | nil => exact h
  | cons row rest ih => exact ih (ascending_load_plugin_classes_row h row)

theorem ascending_load_all_plugins (env : Env) {plugins : List Plugin}
    (h : Ascending Plugin.plugin_uri plugins) (skip : Bool) (rows : List PluginRow) :
    Ascending Plugin.plugin_uri (load_all_plugins env plugins skip rows) := by
  induction rows generalizing plugins skip with
  | nil => cases skip <;> exact h
  | cons row rest ih =>
    cases skip with
    | true => exact ih h false
    | false => exact ih (ascending_load_all_row env h row) _

/-! ## The keys of a folded registry -/

theorem mem_keys_merge_row {α : Type} {key : α → CStr} {upd : α → α} {reg : List α}
    {k : CStr} {new : α} (h : Ascending key reg) (hnew : key new = k)
    (hupd : ∀ a, key (upd a) = key a) (x : CStr) :
    x ∈ (merge_row key upd new k reg).map key ↔ x = k ∨ x ∈ reg.map key := by
  by_cases hk : ∃ b ∈ reg, key b = k
  · rw [merge_row_found new h hk, map_key_update_found hupd]
    constructor
    · exact Or.inr
    · rintro (hx | hx)
      · obtain ⟨b, hb, hbk⟩ := hk
        exact List.mem_map.2 ⟨b, hb, hbk.trans hx.symm⟩
      · exact hx
  · have hk2 : ∀ b ∈ reg, key b ≠ k := fun b hb hbk => hk ⟨b, hb, hbk⟩
    have hperm : (merge_row key upd new k reg).Perm (upd new :: reg) :=
      merge_row_fresh new hk2
    rw [(hperm.map key).mem_iff, List.map_cons, List.mem_cons, hupd, hnew]

theorem mem_keys_load_plugin_classes {classes : List PluginClass}
    (h : Ascending PluginClass.uri classes) (rows : List ClassRow) (x : CStr) :
    x ∈ (slv2_world_load_plugin_classes classes rows).map PluginClass.uri ↔
      x ∈ classes.map PluginClass.uri ∨ x ∈ rows.filterMap class_row_key := by
  unfold slv2_world_load_plugin_classes
  induction rows generalizing classes with
  | nil => simp
  | cons row rest ih =>
    rw [List.foldl_cons, ih (ascending_load_plugin_classes_row h row)]
    cases hk : librdf_node_get_uri row.class_node with
    | none =>
      have hkey : class_row_key row = none := by simp [class_row_key, hk]
      rw [load_plugin_classes_row_dropped hkey, List.filterMap_cons, hkey]
    | some k =>
      cases hp : librdf_node_get_uri row.parent_node with
      | none =>
        have hkey : class_row_key row = none := by simp [class_row_key, hk, hp]
        rw [load_plugin_classes_row_dropped hkey, List.filterMap_cons, hkey]
      | some p =>
        have hkey : class_row_key row = some k := by simp [class_row_key, hk, hp]
        have hm : x ∈ (merge_row PluginClass.uri id
            (slv2_plugin_class_new (some p) k (librdf_node_get_literal_value row.label_node))
            k classes).map PluginClass.uri ↔ x = k ∨ x ∈ classes.map PluginClass.uri :=
          mem_keys_merge_row h rfl (fun _ => rfl) x
        rw [load_plugin_classes_row_valid hk hp, List.filterMap_cons, hkey, hm]
        simp only [List.mem_cons]
        tauto

theorem mem_keys_foldl_load_all_row (env : Env) {plugins : List Plugin}
    (h : Ascending Plugin.plugin_uri plugins) (rows : List PluginRow) (x : CStr) :
    x ∈ (rows.foldl (load_all_row env) plugins).map Plugin.plugin_uri ↔
      x ∈ plugins.map Plugin.plugin_uri ∨ x ∈ rows.filterMap plugin_row_key := by
  induction rows generalizing plugins with
  | nil => simp
  | cons row rest ih =>
    rw [List.foldl_cons, ih (ascending_load_all_row env h row)]
    cases hk : librdf_node_get_uri row.plugin_node with
    | none =>
      have hkey : plugin_row_key row = none := by simp [plugin_row_key, hk]
      rw [load_all_row_dropped env hkey, List.filterMap_cons, hkey]
    | some k =>
      cases hp : librdf_node_get_uri row.data_node with
      | none =>
        have hkey : plugin_row_key row = none := by simp [plugin_row_key, hk, hp]
        rw [load_all_row_dropped env hkey, List.filterMap_cons, hkey]
      | some p =>
        have hkey : plugin_row_key row = some k := by simp [plugin_row_key, hk, hp]
        have hm : x ∈ (merge_row Plugin.plugin_uri (record_data env p)
            (slv2_plugin_new k (librdf_node_get_uri row.bundle_node)) k plugins).map
              Plugin.plugin_uri ↔ x = k ∨ x ∈ plugins.map Plugin.plugin_uri :=
          mem_keys_merge_row h rfl (plugin_uri_record_data env p) x
        rw [load_all_row_valid env hk hp, List.filterMap_cons, hkey, hm]
        simp only [List.mem_cons]
        tauto

theorem ascending_foldl_load_all_row (env : Env) {plugins : List Plugin}
    (h : Ascending Plugin.plugin_uri plugins) (rows : List PluginRow) :
    Ascending Plugin.plugin_uri (rows.foldl (load_all_row env) plugins) := by
  induction rows generalizing plugins with
  | nil => exact h
  | cons row rest ih => exact ih (ascending_load_all_row env h row)

/-- A strictly ascending list with the members of `ks` is the sorted list of
the distinct members of `ks`. -/
theorem eq_sorted_distinct_keys {l ks : List CStr}
    (hasc : l.Pairwise (fun a b => strcmp a b < 0)) (hmem : ∀ x, x ∈ l ↔ x ∈ ks) :
    l = sorted_distinct_keys ks := by
  unfold sorted_distinct_keys
  haveI : IsTotal CStr (fun a b => strcmp a b ≤ 0) :=
    ⟨fun a b => by
      have := strcmp_swap a b
      show strcmp a b ≤ 0 ∨ strcmp b a ≤ 0
      omega⟩
  haveI : IsTrans CStr (fun a b => strcmp a b ≤ 0) :=
    ⟨fun a b c hab hbc => strcmp_nonpos_trans hab hbc⟩
  haveI : IsAntisymm CStr (fun a b => strcmp a b ≤ 0) :=
    ⟨fun a b hab hba => by
      have := strcmp_swap a b
      exact strcmp_eq_zero (by omega)⟩
  have hnd : l.Nodup := hasc.imp (fun h => strcmp_ne_of_neg h)
  have hperm : l.Perm (List.insertionSort (fun a b => strcmp a b ≤ 0) ks.dedup) := by
    refine (List.perm_ext_iff_of_nodup hnd ?_).2 ?_
    · exact (List.perm_insertionSort _ _).nodup_iff.2 (List.nodup_dedup ks)
    · intro x
      rw [(List.perm_insertionSort _ _).mem_iff, List.mem_dedup, hmem]
  exact List.eq_of_perm_of_sorted hperm (hasc.imp (fun h => le_of_lt h))
    (List.sorted_insertionSort _ _)

/-- When no body advances the result stream twice, the plugin loop folds every
row. -/
theorem load_all_plugins_eq_foldl (env : Env) (plugins : List Plugin) (rows : List PluginRow)
    (h : ∀ row ∈ rows, advances_twice env row = false) :
    load_all_plugins env plugins false rows = rows.foldl (load_all_row env) plugins := by
  induction rows generalizing plugins with
  | nil => rfl
  | cons row rest ih =>
    rw [load_all_plugins, h row (List.mem_cons_self _ _), List.foldl_cons]
    exact ih _ (fun r hr => h r (List.mem_cons_of_mem _ hr))

theorem advances_twice_without_option (env : Env) (row : PluginRow) :
    advances_twice { env with SLV2_DYN_MANIFEST := false } row = false := by
  unfold advances_twice is_dynman
  cases librdf_node_get_uri row.plugin_node <;>
    cases librdf_node_get_uri row.data_node <;> rfl

/-! ## The elements of a folded registry -/

/-- The elements of the registry after the merge of a row: the elements with
another key, and the element of the key of the row, updated if it was there and
new otherwise. -/
theorem mem_merge_row {α : Type} {key : α → CStr} {upd : α → α} {reg : List α}
    {k : CStr} (new : α) (h : Ascending key reg) (q : α) :
    q ∈ merge_row key upd new k reg ↔
      (q ∈ reg ∧ key q ≠ k) ∨ (∃ b ∈ reg, key b = k ∧ q = upd b) ∨
        ((∀ b ∈ reg, key b ≠ k) ∧ q = upd new) := by
  by_cases hk : ∃ b ∈ reg, key b = k
  · rw [merge_row_found new h hk, mem_update_found h.nodup_keys]
    constructor
    · rintro (h1 | h1)
      · exact Or.inl h1
      · exact Or.inr (Or.inl h1)
    · rintro (h1 | h1 | ⟨h1, _⟩)
      · exact Or.inl h1
      · exact Or.inr h1
      · obtain ⟨b, hb, hbk⟩ := hk
        exact absurd hbk (h1 b hb)
  · have hk2 : ∀ b ∈ reg, key b ≠ k := fun b hb hbk => hk ⟨b, hb, hbk⟩
    have hperm : (merge_row key upd new k reg).Perm (upd new :: reg) :=
      merge_row_fresh new hk2
    rw [hperm.mem_iff, List.mem_cons]
    constructor
    · rintro (h1 | h1)
      · exact Or.inr (Or.inr ⟨hk2, h1⟩)
      · exact Or.inl ⟨h1, hk2 q h1⟩
    · rintro (⟨h1, _⟩ | ⟨b, hb, hbk, _⟩ | ⟨_, h1⟩)
      · exact Or.inr h1
      · exact absurd hbk (hk2 b hb)
      · exact Or.inl h1

theorem row_data_for_of_key_ne {k : CStr} {row : PluginRow}
    (h : plugin_row_key row ≠ some k) : row_data_for k row = none := by
  unfold row_data_for
  unfold plugin_row_key at h
  cases hp : librdf_node_get_uri row.plugin_node with
  | none => rfl
  | some p =>
    cases hd : librdf_node_get_uri row.data_node with
    | none => rfl
    | some d =>
      have hpk : p ≠ k := by simpa [hp, hd] using h
      simp [hpk]

theorem dataInv_load_all_row (env : Env) {pre : List PluginRow} {plugins : List Plugin}
    (h : DataInv pre plugins) (row : PluginRow)
    (hstatic : ∀ d, librdf_node_get_uri row.data_node = some d → is_dynman env d = false) :
    DataInv (pre ++ [row]) (load_all_row env plugins row) := by
  obtain ⟨hasc, hdata, hnone⟩ := h
  refine ⟨ascending_load_all_row env hasc row, ?_⟩
  by_cases hkey : plugin_row_key row = none
  · rw [load_all_row_dropped env hkey]
    have hrow : ∀ k, row_data_for k row = none :=
      fun k => row_data_for_of_key_ne (by rw [hkey]; simp)
    constructor
    · intro p hp
      rw [List.filterMap_append, List.filterMap_cons, hrow, List.filterMap_nil,
        List.append_nil]
      exact hdata p hp
    · intro k hk
      rw [List.filterMap_append, List.filterMap_cons, hrow, List.filterMap_nil,
        List.append_nil]
      exact hnone k hk
  · obtain ⟨k, hk⟩ : ∃ k, librdf_node_get_uri row.plugin_node = some k := by
      cases hp : librdf_node_get_uri row.plugin_node with
      | none => simp [plugin_row_key, hp] at hkey
      | some k => exact ⟨k, rfl⟩
    obtain ⟨d, hd⟩ : ∃ d, librdf_node_get_uri row.data_node = some d := by
      cases hp : librdf_node_get_uri row.data_node with
      | none => simp [plugin_row_key, hk, hp] at hkey
      | some d => exact ⟨d, rfl⟩
    have hdyn := hstatic d hd
    have hrowk : row_data_for k row = some d := by simp [row_data_for, hk, hd]
    have hrow : ∀ k2, k2 ≠ k → row_data_for k2 row = none := by
      intro k2 hk2
      refine row_data_for_of_key_ne ?_
      simp only [plugin_row_key, hk, hd]
      intro heq
      exact hk2 (Option.some.inj heq).symm
    have hrec : ∀ p : Plugin, record_data env d p =
        { p with data_uris := p.data_uris ++ [d] } := by
      intro p
      simp [record_data, hdyn]
    rw [load_all_row_valid env hk hd]
    constructor
    · intro q hq
      rw [mem_merge_row _ hasc] at hq
      rcases hq with ⟨hq, hqk⟩ | ⟨b, hb, hbk, hqb⟩ | ⟨hfresh, hqn⟩
      · rw [List.filterMap_append, List.filterMap_cons, hrow _ hqk, List.filterMap_nil,
          List.append_nil]
        exact hdata q hq
      · rw [hqb, hrec]
        simp only
        rw [List.filterMap_append, List.filterMap_cons, hbk, hrowk, List.filterMap_nil,
          (hdata b hb).1, hbk]
        exact ⟨rfl, (hdata b hb).2⟩
      · rw [hqn, hrec]
        simp only [slv2_plugin_new]
        rw [List.filterMap_append, List.filterMap_cons, hrowk, List.filterMap_nil,
          hnone k hfresh]
        exact ⟨rfl, trivial⟩
    · intro k2 hk2
      have hk2k : k2 ≠ k := by
        intro heq
        by_cases hex : ∃ b ∈ plugins, b.plugin_uri = k
        · obtain ⟨b, hb, hbk⟩ := hex
          refine hk2 (record_data env d b) ?_ ?_
          · rw [mem_merge_row _ hasc]
            exact Or.inr (Or.inl ⟨b, hb, hbk, rfl⟩)
          · rw [plugin_uri_record_data, hbk, heq]
        · refine hk2 (record_data env d
            (slv2_plugin_new k (librdf_node_get_uri row.bundle_node))) ?_ ?_
          · rw [mem_merge_row _ hasc]
            exact Or.inr (Or.inr ⟨fun b hb hbk => hex ⟨b, hb, hbk⟩, rfl⟩)
          · rw [plugin_uri_record_data, heq]; rfl
      rw [List.filterMap_append, List.filterMap_cons, hrow _ hk2k, List.filterMap_nil,
        List.append_nil]
      refine hnone k2 ?_
      intro p hp hpk
      refine hk2 p ?_ hpk
      rw [mem_merge_row _ hasc]
      exact Or.inl ⟨hp, by rw [hpk]; exact hk2k⟩

theorem dataInv_foldl (env : Env) {pre : List PluginRow} {plugins : List Plugin}
    (h : DataInv pre plugins) (rows : List PluginRow)
    (hstatic : ∀ row ∈ rows, ∀ d, librdf_node_get_uri row.data_node = some d →
      is_dynman env d = false) :
    DataInv (pre ++ rows) (rows.foldl (load_all_row env) plugins) := by
  induction rows generalizing pre plugins with
  | nil => simpa using h
  | cons row rest ih =>
    have h1 := dataInv_load_all_row env h row (hstatic row (List.mem_cons_self _ _))
    have h2 := ih h1 (fun r hr => hstatic r (List.mem_cons_of_mem _ hr))
    simpa using h2

theorem advances_twice_of_static (env : Env) (row : PluginRow)
    (hstatic : ∀ d, librdf_node_get_uri row.data_node = some d → is_dynman env d = false) :
    advances_twice env row = false := by
  unfold advances_twice
  cases hp : librdf_node_get_uri row.plugin_node with
  | none => rfl
  | some p =>
    cases hd : librdf_node_get_uri row.data_node with
    | none => rfl
    | some d => exact hstatic d hd

/-! ## The parent of a class -/

theorem classInv_load_plugin_classes_row {pre : List ClassRow} {classes : List PluginClass}
    (h : ClassInv pre classes) (row : ClassRow) :
    ClassInv (pre ++ [row]) (load_plugin_classes_row classes row) := by
  obtain ⟨hasc, hfirst, hnone⟩ := h
  refine ⟨ascending_load_plugin_classes_row hasc row, ?_⟩
  have hkeep : ∀ c ∈ classes, ∃ r0,
      (pre ++ [row]).find? (fun r => decide (class_row_key r = some c.uri)) = some r0 ∧
        c.parent_uri = librdf_node_get_uri r0.parent_node ∧
        c.label = librdf_node_get_literal_value r0.label_node := by
    intro c hc
    obtain ⟨r0, hr0, hpar⟩ := hfirst c hc
    exact ⟨r0, by rw [List.find?_append, hr0]; rfl, hpar⟩
  by_cases hkey : class_row_key row = none
  · rw [load_plugin_classes_row_dropped hkey]
    refine ⟨hkeep, ?_⟩
    intro k hk r hr
    rcases List.mem_append.1 hr with hr | hr
    · exact hnone k hk r hr
    · rw [List.mem_singleton.1 hr, hkey]; simp
  · obtain ⟨k, hk⟩ : ∃ k, librdf_node_get_uri row.class_node = some k := by
      cases hp : librdf_node_get_uri row.class_node with
      | none => simp [class_row_key, hp] at hkey
      | some k => exact ⟨k, rfl⟩
    obtain ⟨par, hpar⟩ : ∃ par, librdf_node_get_uri row.parent_node = some par := by
      cases hp : librdf_node_get_uri row.parent_node with
      | none => simp [class_row_key, hk, hp] at hkey
      | some d => exact ⟨d, rfl⟩
    have hrowk : class_row_key row = some k := by simp [class_row_key, hk, hpar]
    rw [load_plugin_classes_row_valid hk hpar]
    constructor
    · intro q hq
      rw [mem_merge_row _ hasc] at hq
      rcases hq with ⟨hq, _⟩ | ⟨b, hb, _, hqb⟩ | ⟨hfresh, hqn⟩
      · exact hkeep q hq
      · rw [hqb]; exact hkeep b hb
      · refine ⟨row, ?_, ?_, ?_⟩
        · have hpre : pre.find? (fun r => decide (class_row_key r = some q.uri)) = none := by
            rw [List.find?_eq_none]
            intro r hr
            have := hnone k hfresh r hr
            rw [hqn]
            simpa [slv2_plugin_class_new] using this
          rw [List.find?_append, hpre, hqn]
          simp [slv2_plugin_class_new, hrowk]
        · rw [hqn, hpar]; rfl
        · rw [hqn]; rfl
    · intro k2 hk2 r hr
      have hk2k : k2 ≠ k := by
        intro heq
        by_cases hex : ∃ b ∈ classes, b.uri = k
        · obtain ⟨b, hb, hbk⟩ := hex
          refine hk2 b ?_ (hbk.trans heq.symm)
          rw [mem_merge_row _ hasc]
          exact Or.inr (Or.inl ⟨b, hb, hbk, rfl⟩)
        · refine hk2 (slv2_plugin_class_new (some par) k
            (librdf_node_get_literal_value row.label_node)) ?_ heq.symm
          rw [mem_merge_row _ hasc]
          exact Or.inr (Or.inr ⟨fun b hb hbk => hex ⟨b, hb, hbk⟩, rfl⟩)
      rcases List.mem_append.1 hr with hr | hr
      · refine hnone k2 ?_ r hr
        intro c hc hck
        refine hk2 c ?_ hck
        rw [mem_merge_row _ hasc]
        exact Or.inl ⟨hc, by rw [hck]; exact hk2k⟩
      · rw [List.mem_singleton.1 hr, hrowk]
        intro heq
        exact hk2k (Option.some.inj heq).symm

theorem classInv_load_plugin_classes {pre : List ClassRow} {classes : List PluginClass}
    (h : ClassInv pre classes) (rows : List ClassRow) :
    ClassInv (pre ++ rows) (slv2_world_load_plugin_classes classes rows) := by
  unfold slv2_world_load_plugin_classes
  induction rows generalizing pre classes with
  | nil => simpa using h
  | cons row rest ih =>
    have h2 := ih (classInv_load_plugin_classes_row h row)
    simpa using h2

/-- A row whose key is in an ascending class registry leaves it as it is. -/
theorem load_plugin_classes_row_of_mem {classes : List PluginClass}
    (h : Ascending PluginClass.uri classes) {row : ClassRow} {c : PluginClass}
    (hc : c ∈ classes) (hkey : class_row_key row = some c.uri) :
    load_plugin_classes_row classes row = classes := by
  obtain ⟨k, hk⟩ : ∃ k, librdf_node_get_uri row.class_node = some k := by
    cases hp : librdf_node_get_uri row.class_node with
    | none => simp [class_row_key, hp] at hkey
    | some k => exact ⟨k, rfl⟩
  obtain ⟨par, hpar⟩ : ∃ par, librdf_node_get_uri row.parent_node = some par := by
    cases hp : librdf_node_get_uri row.parent_node with
    | none => simp [class_row_key, hk, hp] at hkey
    | some d => exact ⟨d, rfl⟩
  have hck : c.uri = k := by simpa [class_row_key, hk, hpar] using hkey.symm
  rw [load_plugin_classes_row_valid hk hpar, merge_row_found _ h ⟨c, hc, hck⟩,
    update_found_id]

/-! ## The path loop and the filter loop -/

theorem strchr_first {pre : List Nat} {c : Nat} (post : List Nat)
    (h : ∀ b ∈ pre, b ≠ c ∧ b ≠ 0) : strchr (pre ++ c :: post) c = some pre.length := by
  induction pre with
  | nil => simp [strchr]
  | cons x xs ih =>
    have hx := h x (List.mem_cons_self _ _)
    simp [strchr, hx.1, hx.2, ih (fun b hb => h b (List.mem_cons_of_mem _ hb))]

theorem strchr_none {pre : List Nat} {c : Nat} (hc : c ≠ 0)
    (h : ∀ b ∈ pre, b ≠ c ∧ b ≠ 0) : strchr (pre ++ [0]) c = none := by
  induction pre with
  | nil => simp [strchr, hc.symm]
  | cons x xs ih =>
    have hx := h x (List.mem_cons_self _ _)
    simp [strchr, hx.1, hx.2, ih (fun b hb => h b (List.mem_cons_of_mem _ hb))]

theorem set_at_length (pre : List Nat) (c v : Nat) (post : List Nat) :
    (pre ++ c :: post).set pre.length v = pre ++ v :: post := by
  induction pre with
  | nil => rfl
  | cons x xs ih => simp [ih]

theorem cstr_at_segment (pre seg post : List Nat) (h : ∀ b ∈ seg, b ≠ 0) :
    cstr_at (pre ++ (seg ++ 0 :: post)) pre.length = seg := by
  unfold cstr_at
  rw [List.drop_left]
  induction seg with
  | nil => simp
  | cons x xs ih =>
    have hx := h x (List.mem_cons_self _ _)
    have ih2 := ih (fun b hb => h b (List.mem_cons_of_mem _ hb))
    simp only [List.cons_append, List.takeWhile, hx, ne_eq, not_false_eq_true, decide_True]
    exact congrArg (List.cons x) ih2

theorem exists_first_colon (p : List Nat) :
    (∀ b ∈ p, b ≠ colon) ∨
      ∃ seg q, p = seg ++ colon :: q ∧ ∀ b ∈ seg, b ≠ colon := by
  induction p with
  | nil => left; simp
  | cons x xs ih =>
    by_cases hx : x = colon
    · right; exact ⟨[], xs, by simp [hx], by simp⟩
    · rcases ih with h | ⟨seg, q, hp, hseg⟩
      · left
        intro b hb
        rcases List.mem_cons.1 hb with hb | hb
        · rw [hb]; exact hx
        · exact h b hb
      · right
        refine ⟨x :: seg, q, by simp [hp], ?_⟩
        intro b hb
        rcases List.mem_cons.1 hb with hb | hb
        · rw [hb]; exact hx
        · exact hseg b hb

theorem load_path_loop_spec (env : Env) (fuel : Nat) (world : World) (done p : List Nat)
    (hdone : ∀ b ∈ done, b ≠ colon ∧ b ≠ 0) (hp : ∀ b ∈ p, b ≠ 0)
    (hfuel : p.length + 2 ≤ fuel) :
    load_path_loop env fuel world (done ++ (p ++ [colon] ++ [0])) done.length =
      some ((p.splitOn colon).foldl (slv2_world_load_directory env) world) := by
  induction fuel generalizing world done p with
  | zero => omega
  | succ fuel ih =>
    rcases exists_first_colon p with hclean | ⟨seg, q, hpq, hseg⟩
    · have h1 : ∀ b ∈ done ++ p, b ≠ colon ∧ b ≠ 0 := by
        intro b hb
        rcases List.mem_append.1 hb with hb | hb
        · exact hdone b hb
        · exact ⟨hclean b hb, hp b hb⟩
      have hbuf : done ++ (p ++ [colon] ++ [0]) = (done ++ p) ++ colon :: [0] := by simp
      have hsplit : p.splitOn colon = [p] := by
        unfold List.splitOn
        exact List.splitOnP_eq_single _ _ (by simpa using hclean)
      have hfuel2 : ∃ f, fuel = f + 1 := ⟨fuel - 1, by omega⟩
      obtain ⟨f, hf⟩ := hfuel2
      have hX : ∀ b ∈ done ++ p ++ [letter_X], b ≠ colon ∧ b ≠ 0 := by
        intro b hb
        rcases List.mem_append.1 hb with hb | hb
        · exact h1 b hb
        · rw [List.mem_singleton.1 hb]; decide
      have hdir : cstr_at (done ++ (p ++ 0 :: [0])) done.length = p :=
        cstr_at_segment done p [0] hp
      rw [hbuf, load_path_loop, strchr_first _ h1]
      simp only [set_at_length]
      rw [hf, load_path_loop]
      have hb2 : done ++ p ++ [letter_X, 0] = (done ++ p ++ [letter_X]) ++ [0] := by simp
      rw [hb2, strchr_none (by decide) hX, hsplit]
      have hb3 : done ++ p ++ [0, 0] = done ++ (p ++ 0 :: [0]) := by simp
      rw [hb3, hdir]
      rfl
    · have hq : ∀ b ∈ q, b ≠ 0 := fun b hb => hp b (by rw [hpq]; simp [hb])
      have hseg0 : ∀ b ∈ seg, b ≠ 0 := fun b hb => hp b (by rw [hpq]; simp [hb])
      have h1 : ∀ b ∈ done ++ seg, b ≠ colon ∧ b ≠ 0 := by
        intro b hb
        rcases List.mem_append.1 hb with hb | hb
        · exact hdone b hb
        · exact ⟨hseg b hb, hseg0 b hb⟩
      have hX : ∀ b ∈ done ++ seg ++ [letter_X], b ≠ colon ∧ b ≠ 0 := by
        intro b hb
        rcases List.mem_append.1 hb with hb | hb
        · exact h1 b hb
        · rw [List.mem_singleton.1 hb]; decide
      have hsplit : p.splitOn colon = seg :: q.splitOn colon := by
        rw [hpq]
        unfold List.splitOn
        exact List.splitOnP_first _ _ (by simpa using hseg) colon (by simp) q
      have hbuf : done ++ (p ++ [colon] ++ [0]) =
          (done ++ seg) ++ colon :: (q ++ [colon] ++ [0]) := by simp [hpq]
      have hlen : q.length + 2 ≤ fuel := by
        have : p.length = seg.length + (q.length + 1) := by rw [hpq]; simp
        omega
      have hdir : cstr_at (done ++ (seg ++ 0 :: (q ++ [colon] ++ [0]))) done.length = seg :=
        cstr_at_segment done seg _ hseg0
      rw [hbuf, load_path_loop, strchr_first _ h1]
      simp only [set_at_length]
      have hb2 : done ++ seg ++ letter_X :: (q ++ [colon] ++ [0]) =
          (done ++ seg ++ [letter_X]) ++ (q ++ [colon] ++ [0]) := by simp
      have hb3 : done ++ seg ++ 0 :: (q ++ [colon] ++ [0]) =
          done ++ (seg ++ 0 :: (q ++ [colon] ++ [0])) := by simp
      have hl : (done ++ seg).length + 1 = (done ++ seg ++ [letter_X]).length := by
        simp only [List.length_append, List.length_singleton]
      rw [hb2, hb3, hdir, hl, ih _ _ q hX hq hlen, hsplit]
      rfl

theorem get_plugins_by_filter_loop_eq (plugins : List Plugin) (incl : Plugin → Bool)
    (todo i : Nat) (result : List Plugin) (h : i + todo = plugins.length) :
    get_plugins_by_filter_loop plugins incl todo i result =
      result ++ (plugins.drop i).filter incl := by
  induction todo generalizing i result with
  | zero =>
    rw [get_plugins_by_filter_loop, List.drop_eq_nil_of_le (by omega)]
    simp
  | succ todo ih =>
    have hi : i < plugins.length := by omega
    rw [get_plugins_by_filter_loop, List.get?_eq_getElem?, List.getElem?_eq_getElem hi]
    simp only
    rw [ih (i + 1) _ (by omega), List.drop_eq_getElem_cons hi, List.filter_cons]
    split_ifs <;> simp

theorem load_directory_entry_dot (env : Env) (dir : CStr) (world : World) (d_name : CStr)
    (h : d_name = dot ∨ d_name = dotdot) : load_directory_entry env dir world d_name = world := by
  unfold load_directory_entry
  rcases h with h | h <;> rw [h] <;> rfl

theorem foldl_load_directory_entry_filter (env : Env) (dir : CStr) (entries : List CStr)
    (world : World) :
    entries.foldl (load_directory_entry env dir) world =
      (entries.filter (fun e => decide (e ≠ dot ∧ e ≠ dotdot))).foldl
        (load_directory_entry env dir) world := by
  induction entries generalizing world with
  | nil => rfl
  | cons e rest ih =>
    by_cases he : e ≠ dot ∧ e ≠ dotdot
    · rw [List.filter_cons_of_pos (by simpa using he), List.foldl_cons, List.foldl_cons]
      exact ih _
    · have he2 : e = dot ∨ e = dotdot := by
        by_cases h1 : e = dot
        · exact Or.inl h1
        · by_cases h2 : e = dotdot
          · exact Or.inr h2
          · exact absurd ⟨h1, h2⟩ he
      rw [List.filter_cons_of_neg (by simpa using he), List.foldl_cons,
        load_directory_entry_dot env dir world e he2]
      exact ih _

/-! ## The store and the bundle loader -/

theorem mem_librdf_model_add (model : List Triple) (t s : Triple) :
    s ∈ librdf_model_add model t ↔ s ∈ model ∨ s = t := by
  unfold librdf_model_add
  split_ifs with h
  · constructor
    · exact Or.inl
    · rintro (h1 | h1)
      · exact h1
      · rw [h1]; exact h
  · simp

theorem librdf_model_add_extends (model : List Triple) (t : Triple) :
    ∃ added, librdf_model_add model t = model ++ added := by
  unfold librdf_model_add
  split_ifs
  · exact ⟨[], by simp⟩
  · exact ⟨[t], rfl⟩

theorem nodup_librdf_model_add {model : List Triple} (h : model.Nodup) (t : Triple) :
    (librdf_model_add model t).Nodup := by
  unfold librdf_model_add
  split_ifs with ht
  · exact h
  · exact List.Nodup.append h (List.nodup_singleton t) (by
      intro x hx hx2
      rw [List.mem_singleton] at hx2
      exact ht (hx2 ▸ hx))

theorem mem_librdf_model_add_statements (model stream : List Triple) (s : Triple) :
    s ∈ librdf_model_add_statements model stream ↔ s ∈ model ∨ s ∈ stream := by
  unfold librdf_model_add_statements
  induction stream generalizing model with
  | nil => simp
  | cons t rest ih =>
    rw [List.foldl_cons, ih, mem_librdf_model_add, List.mem_cons]
    tauto

theorem librdf_model_add_statements_extends (model stream : List Triple) :
    ∃ added, librdf_model_add_statements model stream = model ++ added := by
  unfold librdf_model_add_statements
  induction stream generalizing model with
  | nil => exact ⟨[], by simp⟩
  | cons t rest ih =>
    obtain ⟨a1, h1⟩ := librdf_model_add_extends model t
    obtain ⟨a2, h2⟩ := ih (librdf_model_add model t)
    exact ⟨a1 ++ a2, by rw [List.foldl_cons, h2, h1, List.append_assoc]⟩

theorem nodup_librdf_model_add_statements {model : List Triple} (h : model.Nodup)
    (stream : List Triple) : (librdf_model_add_statements model stream).Nodup := by
  unfold librdf_model_add_statements
  induction stream generalizing model with
  | nil => exact h
  | cons t rest ih => exact ih (nodup_librdf_model_add h t)

theorem mem_librdf_model_find_statements (model : List Triple) (p o : Node) (s : Triple) :
    s ∈ librdf_model_find_statements model p o ↔
      s ∈ model ∧ s.predicate = p ∧ s.object = o := by
  simp [librdf_model_find_statements]

/-- The statements added for the matches of one pattern, as one stream. -/
theorem foldl_add_bundle_links (manifest_uri bundle_uri : CStr) (model found : List Triple) :
    found.foldl (add_bundle_links manifest_uri bundle_uri) model =
      librdf_model_add_statements model (found.flatMap (fun s =>
        [⟨s.subject, rdfs_seeAlso_node, .resource manifest_uri⟩,
          ⟨s.subject, slv2_bundleURI_node, .resource bundle_uri⟩])) := by
  unfold librdf_model_add_statements
  induction found generalizing model with
  | nil => rfl
  | cons s rest ih =>
    rw [List.foldl_cons, ih]
    simp [add_bundle_links]

theorem load_dyn_manifest_of_not_loads (env : Env) (bundle_uri : CStr)
    (state : World × List Triple) (binary_node : Node)
    (h : binary_loads env binary_node = false) :
    load_dyn_manifest env bundle_uri state binary_node = state := by
  unfold binary_loads at h
  unfold load_dyn_manifest
  cases hu : librdf_node_get_uri binary_node with
  | none => rfl
  | some lib_uri =>
    rw [hu] at h
    simp only at h ⊢
    cases hp : env.slv2_uri_to_path lib_uri with
    | none => rfl
    | some lib_path =>
      rw [hp] at h
      simp only at h ⊢
      cases hl : env.dlopen (some lib_path) with
      | none => rfl
      | some lib => simp [hl] at h

theorem foldl_load_dyn_manifest_filter (env : Env) (bundle_uri : CStr)
    (state : World × List Triple) (binaries : List Node) :
    binaries.foldl (load_dyn_manifest env bundle_uri) state =
      (binaries.filter (binary_loads env)).foldl (load_dyn_manifest env bundle_uri) state := by
  induction binaries generalizing state with
  | nil => rfl
  | cons b rest ih =>
    cases hb : binary_loads env b with
    | true => rw [List.filter_cons_of_pos hb, List.foldl_cons, List.foldl_cons]; exact ih _
    | false =>
      rw [List.filter_cons_of_neg (by simp [hb]), List.foldl_cons,
        load_dyn_manifest_of_not_loads env bundle_uri state b hb]
      exact ih _

theorem mem_plugin_query (model : List Triple) (row : PluginRow) :
    row ∈ plugin_query model ↔
      (⟨row.plugin_node, rdf_a_node, lv2_plugin_node⟩ : Triple) ∈ model ∧
        (⟨row.plugin_node, slv2_bundleURI_node, row.bundle_node⟩ : Triple) ∈ model ∧
        (⟨row.plugin_node, rdfs_seeAlso_node, row.data_node⟩ : Triple) ∈ model := by
  unfold plugin_query
  simp only [List.mem_flatMap, List.mem_map, List.mem_filter, mem_librdf_model_find_statements,
    decide_eq_true_eq]
  constructor
  · rintro ⟨t, ⟨ht, htp, hto⟩, b, ⟨hb, hbs, hbp⟩, d, ⟨hd, hds, hdp⟩, hrow⟩
    rw [← hrow]
    refine ⟨?_, ?_, ?_⟩
    · have : (⟨t.subject, rdf_a_node, lv2_plugin_node⟩ : Triple) = t := by
        rw [← htp, ← hto]
      rw [this]; exact ht
    · have : (⟨t.subject, slv2_bundleURI_node, b.object⟩ : Triple) = b := by
        rw [← hbs, ← hbp]
      rw [this]; exact hb
    · have : (⟨t.subject, rdfs_seeAlso_node, d.object⟩ : Triple) = d := by
        rw [← hds, ← hdp]
      rw [this]; exact hd
  · rintro ⟨h1, h2, h3⟩
    exact ⟨_, ⟨h1, rfl, rfl⟩, _, ⟨h2, rfl, rfl⟩, _, ⟨h3, rfl, rfl⟩, rfl⟩

theorem model_slv2_world_new_storage (trees_ok : Bool) (world : World) :
    (slv2_world_new_storage trees_ok world).model = world.model ∧
      (slv2_world_new_storage trees_ok world).plugins = world.plugins ∧
      (slv2_world_new_storage trees_ok world).plugin_classes = world.plugin_classes := by
  unfold slv2_world_new_storage
  split_ifs <;> exact ⟨rfl, rfl, rfl⟩

/-- When no declared binary loads, the bundle is loaded as by a build without
the extension step. -/
theorem load_bundle_of_no_loads (env : Env) (world : World) (uri_val : CStr)
    (hfail : ∀ b ∈ dyn_manifest_query (librdf_model_add_statements []
      (env.parse (env.relative_to_base uri_val (cstr "manifest.ttl")))),
      binary_loads env b = false) :
    slv2_world_load_bundle env world (SLV2Value.uri uri_val) =
      slv2_world_load_bundle { env with SLV2_DYN_MANIFEST := false } world
        (SLV2Value.uri uri_val) := by
  have hfold : (dyn_manifest_query (librdf_model_add_statements []
      (env.parse (env.relative_to_base uri_val (cstr "manifest.ttl"))))).foldl
        (load_dyn_manifest env uri_val)
        (slv2_world_new_storage env.trees_ok world, librdf_model_add_statements []
          (env.parse (env.relative_to_base uri_val (cstr "manifest.ttl")))) =
      (slv2_world_new_storage env.trees_ok world, librdf_model_add_statements []
          (env.parse (env.relative_to_base uri_val (cstr "manifest.ttl")))) := by
    rw [foldl_load_dyn_manifest_filter, List.filter_eq_nil_iff.2 (by
      intro b hb
      rw [hfail b hb]
      simp)]
    rfl
  unfold slv2_world_load_bundle
  simp only [hfold, ite_self, Bool.false_eq_true, if_false]

/-- The global model after a bundle is loaded without the extension step. -/
theorem mem_model_load_bundle_static (env : Env) (world : World) (uri_val : CStr)
    (hflag : env.SLV2_DYN_MANIFEST = false) (t : Triple) :
    t ∈ (slv2_world_load_bundle env world (SLV2Value.uri uri_val)).model ↔
      t ∈ world.model ∨
        t ∈ env.parse (env.relative_to_base uri_val (cstr "manifest.ttl")) ∨
        ∃ e, ((⟨e, rdf_a_node, lv2_plugin_node⟩ : Triple) ∈
              env.parse (env.relative_to_base uri_val (cstr "manifest.ttl")) ∨
            (⟨e, rdf_a_node, lv2_specification_node⟩ : Triple) ∈
              env.parse (env.relative_to_base uri_val (cstr "manifest.ttl"))) ∧
          (t = ⟨e, rdfs_seeAlso_node,
              .resource (env.relative_to_base uri_val (cstr "manifest.ttl"))⟩ ∨
            t = ⟨e, slv2_bundleURI_node, .resource uri_val⟩) := by
  unfold slv2_world_load_bundle
  simp only [hflag, Bool.false_eq_true, if_false, foldl_add_bundle_links,
    mem_librdf_model_add_statements, (model_slv2_world_new_storage _ _).1, List.mem_flatMap,
    mem_librdf_model_find_statements, List.not_mem_nil, false_or, List.mem_cons, or_false]
  constructor
  · rintro (((h | ⟨s, ⟨hs, hp, ho⟩, ht⟩) | ⟨s, ⟨hs, hp, ho⟩, ht⟩) | h)
    · exact Or.inl h
    · refine Or.inr (Or.inr ⟨s.subject, Or.inl ?_, ht⟩)
      have : (⟨s.subject, rdf_a_node, lv2_plugin_node⟩ : Triple) = s := by rw [← hp, ← ho]
      rw [this]; exact hs
    · refine Or.inr (Or.inr ⟨s.subject, Or.inr ?_, ht⟩)
      have : (⟨s.subject, rdf_a_node, lv2_specification_node⟩ : Triple) = s := by
        rw [← hp, ← ho]
      rw [this]; exact hs
    · exact Or.inr (Or.inl h)
  · rintro (h | h | ⟨e, he | he, ht⟩)
    · exact Or.inl (Or.inl (Or.inl h))
    · exact Or.inr h
    · exact Or.inl (Or.inl (Or.inr ⟨_, ⟨he, rfl, rfl⟩, ht⟩))
    · exact Or.inl (Or.inr ⟨_, ⟨he, rfl, rfl⟩, ht⟩)

/-- The global model after a bundle is loaded without the extension step holds
the model before as an initial part and stays free of duplicates. -/
theorem model_load_bundle_static_extends (env : Env) (world : World) (uri_val : CStr)
    (hflag : env.SLV2_DYN_MANIFEST = false) :
    (∃ added, (slv2_world_load_bundle env world (SLV2Value.uri uri_val)).model =
        world.model ++ added) ∧
      (world.model.Nodup →
        (slv2_world_load_bundle env world (SLV2Value.uri uri_val)).model.Nodup) ∧
      (slv2_world_load_bundle env world (SLV2Value.uri uri_val)).plugins = world.plugins ∧
      (slv2_world_load_bundle env world (SLV2Value.uri uri_val)).plugin_classes =
        world.plugin_classes := by
  unfold slv2_world_load_bundle
  simp only [hflag, Bool.false_eq_true, if_false, foldl_add_bundle_links,
    (model_slv2_world_new_storage _ _).1, (model_slv2_world_new_storage _ _).2.1,
    (model_slv2_world_new_storage _ _).2.2]
  refine ⟨?_, ?_, trivial, trivial⟩
  · obtain ⟨a1, h1⟩ := librdf_model_add_statements_extends world.model
      ((librdf_model_find_statements (librdf_model_add_statements []
        (env.parse (env.relative_to_base uri_val (cstr "manifest.ttl"))))
        rdf_a_node lv2_plugin_node).flatMap (fun s =>
          [⟨s.subject, rdfs_seeAlso_node,
              .resource (env.relative_to_base uri_val (cstr "manifest.ttl"))⟩,
            ⟨s.subject, slv2_bundleURI_node, .resource uri_val⟩]))
    rw [h1]
    obtain ⟨a2, h2⟩ := librdf_model_add_statements_extends (world.model ++ a1)
      ((librdf_model_find_statements (librdf_model_add_statements []
        (env.parse (env.relative_to_base uri_val (cstr "manifest.ttl"))))
        rdf_a_node lv2_specification_node).flatMap (fun s =>
          [⟨s.subject, rdfs_seeAlso_node,
              .resource (env.relative_to_base uri_val (cstr "manifest.ttl"))⟩,
            ⟨s.subject, slv2_bundleURI_node, .resource uri_val⟩]))
    rw [h2]
    obtain ⟨a3, h3⟩ := librdf_model_add_statements_extends (world.model ++ a1 ++ a2)
      (librdf_model_add_statements []
        (env.parse (env.relative_to_base uri_val (cstr "manifest.ttl"))))
    rw [h3]
    exact ⟨a1 ++ a2 ++ a3, by simp⟩
  · intro hnd
    exact nodup_librdf_model_add_statements
      (nodup_librdf_model_add_statements (nodup_librdf_model_add_statements hnd _) _) _

/-! ## The default search path -/

theorem write_at_length (pre : List Nat) (x v : Nat) (post : List Nat) :
    write (pre ++ x :: post) pre.length v = some (pre ++ v :: post) := by
  unfold write
  rw [if_pos (by simp), set_at_length]

theorem strcpy_at_fill (word : CStr) (pre fill : List Nat)
    (h : fill.length = word.length + 1) :
    strcpy_at (pre ++ fill) pre.length word = some (pre ++ word ++ [0]) := by
  induction word generalizing pre fill with
  | nil =>
    cases fill with
    | nil => simp at h
    | cons x rest =>
      have hrest : rest = [] := List.length_eq_zero.1 (by simpa using h)
      rw [hrest, strcpy_at, write_at_length]
      simp
  | cons c cs ih =>
    cases fill with
    | nil => simp at h
    | cons x rest =>
      have hrest : rest.length = cs.length + 1 := by simpa using h
      rw [strcpy_at, write_at_length]
      have h1 : pre ++ c :: rest = (pre ++ [c]) ++ rest := by simp
      have h2 : pre.length + 1 = (pre ++ [c]).length := by simp
      simp only
      rw [h1, h2, ih (pre ++ [c]) rest hrest]
      simp

/-- A further word is appended behind a `':'`, inside the resized buffer. -/
theorem append_word_some (str word : CStr) :
    append_word (some (str ++ [0]), str.length) word =
      some (some ((str ++ colon :: word) ++ [0]), (str ++ colon :: word).length) := by
  have hre : realloc (str ++ [0]) (str.length + word.length + 2) =
      str ++ 0 :: List.replicate (word.length + 1) junk := by
    unfold realloc
    rw [List.take_of_length_le (by simp; omega)]
    have : str.length + word.length + 2 - (str ++ [0]).length = word.length + 1 := by
      simp; omega
    rw [this]
    simp
  have hcopy := strcpy_at_fill word (str ++ [colon]) (List.replicate (word.length + 1) junk)
    (by simp)
  have h1 : str ++ colon :: List.replicate (word.length + 1) junk =
      (str ++ [colon]) ++ List.replicate (word.length + 1) junk := by simp
  have h2 : str.length + 1 = (str ++ [colon]).length := by simp
  unfold append_word
  simp only [hre, write_at_length]
  rw [h1, h2, hcopy]
  simp

theorem append_words_some (str : CStr) (words : List CStr) :
    append_words (some (str ++ [0]), str.length) words =
      some (some ((str ++ words.flatMap (fun w => colon :: w)) ++ [0]),
        (str ++ words.flatMap (fun w => colon :: w)).length) := by
  induction words generalizing str with
  | nil => simp [append_words]
  | cons w rest ih =>
    rw [append_words, append_word_some]
    simp only
    rw [ih]
    simp

theorem intercalate_colon_cons (word : CStr) (words : List CStr) :
    List.intercalate [colon] (word :: words) =
      word ++ words.flatMap (fun w => colon :: w) := by
  induction words generalizing word with
  | nil => simp [List.intercalate]
  | cons w rest ih =>
    have h := ih w
    simp only [List.intercalate, List.intersperse, List.flatten_cons] at h ⊢
    rw [h]
    simp

/-- The pair `(lv2_path, lv2_path_len)` that holds the `':'`-join of the words,
or NULL when there is no word. -/
theorem append_words_start (words : List CStr) :
    append_words (none, 0) words =
      some (match words with
        | [] => (none, 0)
        | w :: ws => (some (List.intercalate [colon] (w :: ws) ++ [0]),
            (List.intercalate [colon] (w :: ws)).length)) := by
  cases words with
  | nil => rfl
  | cons w ws =>
    rw [append_words]
    simp only [append_word]
    rw [append_words_some, intercalate_colon_cons]

theorem append_words_append (state : Option (List Nat) × Nat) (a b : List CStr) :
    append_words state (a ++ b) =
      (append_words state a).bind (fun s => append_words s b) := by
  induction a generalizing state with
  | nil => rfl
  | cons w rest ih =>
    rw [List.cons_append, append_words, append_words]
    cases append_word state w with
    | none => rfl
    | some s => exact ih s

theorem get?_at_length (pre : List Nat) (x : Nat) (post : List Nat) :
    (pre ++ x :: post).get? pre.length = some x := by
  induction pre with
  | nil => rfl
  | cons y ys ih => simpa using ih

/-- The segment loop appends the words of the expansions of the segments, from
left to right. -/
theorem default_path_loop_spec (wordexp : CStr → List CStr) (hempty : wordexp [] = [])
    (fuel : Nat) (done p : List Nat) (state : Option (List Nat) × Nat)
    (hp : ∀ b ∈ p, b ≠ 0) (hfuel : p.length + 1 ≤ fuel) :
    default_path_loop wordexp fuel (done ++ (p ++ [0])) done.length state =
      append_words state ((p.splitOn colon).flatMap wordexp) := by
  induction fuel generalizing done p state with
  | zero => omega
  | succ fuel ih =>
    cases p with
    | nil =>
      rw [default_path_loop, List.nil_append, get?_at_length]
      simp [hempty, append_words]
    | cons x xs =>
      have hx : x ≠ 0 := hp x (List.mem_cons_self _ _)
      rw [default_path_loop, List.cons_append, get?_at_length]
      simp only [hx, if_false]
      rw [List.drop_left]
      rcases exists_first_colon (x :: xs) with hclean | ⟨seg, q, hpq, hseg⟩
      · have h1 : ∀ b ∈ x :: xs, b ≠ colon ∧ b ≠ 0 := fun b hb => ⟨hclean b hb, hp b hb⟩
        have hsplit : (x :: xs).splitOn colon = [x :: xs] := by
          unfold List.splitOn
          exact List.splitOnP_eq_single _ _ (by simpa using hclean)
        have hdir : cstr_at (done ++ ((x :: xs) ++ 0 :: [])) done.length = x :: xs :=
          cstr_at_segment done (x :: xs) [] hp
        have hnone : strchr (x :: (xs ++ [0])) colon = none :=
          strchr_none (by decide) h1
        rw [hnone, hsplit]
        simp only [List.flatMap_cons, List.flatMap_nil, List.append_nil]
        have hdir2 : cstr_at (done ++ x :: (xs ++ [0])) done.length = x :: xs := hdir
        rw [hdir2]
        cases happ : append_words state (wordexp (x :: xs)) with
        | none => rfl
        | some s =>
          obtain ⟨f, hf⟩ : ∃ f, fuel = f + 1 := ⟨fuel - 1, by simp at hfuel; omega⟩
          simp only
          rw [hf, default_path_loop, set_at_length, get?_at_length]
          simp
      · have hq : ∀ b ∈ q, b ≠ 0 := fun b hb => hp b (by rw [hpq]; simp [hb])
        have hseg0 : ∀ b ∈ seg, b ≠ 0 := fun b hb => hp b (by rw [hpq]; simp [hb])
        have h1 : ∀ b ∈ seg, b ≠ colon ∧ b ≠ 0 := fun b hb => ⟨hseg b hb, hseg0 b hb⟩
        have hsplit : (x :: xs).splitOn colon = seg :: q.splitOn colon := by
          rw [hpq]
          unfold List.splitOn
          exact List.splitOnP_first _ _ (by simpa using hseg) colon (by simp) q
        have hbuf : x :: (xs ++ [0]) = seg ++ colon :: (q ++ [0]) := by
          have : x :: (xs ++ [0]) = (x :: xs) ++ [0] := rfl
          rw [this, hpq]
          simp
        have hlen : q.length + 1 ≤ fuel := by
          have : (x :: xs).length = seg.length + (q.length + 1) := by rw [hpq]; simp
          omega
        have hset : (done ++ (seg ++ colon :: (q ++ [0]))).set (done.length + seg.length) 0 =
            (done ++ seg ++ [0]) ++ (q ++ [0]) := by
          have h2 : done ++ (seg ++ colon :: (q ++ [0])) =
              (done ++ seg) ++ colon :: (q ++ [0]) := by simp
          have h3 : done.length + seg.length = (done ++ seg).length := by simp
          rw [h2, h3, set_at_length]
          simp
        have hdir : cstr_at ((done ++ seg ++ [0]) ++ (q ++ [0])) done.length = seg := by
          have h2 : (done ++ seg ++ [0]) ++ (q ++ [0]) = done ++ (seg ++ 0 :: (q ++ [0])) := by
            simp
          rw [h2]
          exact cstr_at_segment done seg _ hseg0
        have hl : done.length + seg.length + 1 = (done ++ seg ++ [0]).length := by
          simp only [List.length_append, List.length_singleton]
        rw [hbuf, strchr_first _ h1, hsplit, List.flatMap_cons, append_words_append]
        simp only [hset, hdir]
        cases happ : append_words state (wordexp seg) with
        | none => rfl
        | some s =>
          simp only [Option.bind]
          rw [hl, ih (done ++ seg ++ [0]) q s hq hlen]

/-! ## The registries are sorted and key-unique -/

/-- C1: from an empty registry, after every row of any stream (every prefix
`rows.take n`), the plugin-class registry and the plugin registry are strictly
ascending by URI under `strcmp` and hold no URI twice; the rows `A`, `C`, `B`
show the case of a key strictly inside the current range, where the element is
pushed and the whole sequence sorted. -/
theorem registries_stay_strictly_ascending :
    (∀ (rows : List ClassRow) (n : Nat),
      (slv2_world_load_plugin_classes [] (rows.take n)).Pairwise
          (fun a b => strcmp a.uri b.uri < 0) ∧
        ((slv2_world_load_plugin_classes [] (rows.take n)).map PluginClass.uri).Nodup) ∧
    (∀ (env : Env) (rows : List PluginRow) (n : Nat),
      (load_all_plugins env [] false (rows.take n)).Pairwise
          (fun a b => strcmp a.plugin_uri b.plugin_uri < 0) ∧
        ((load_all_plugins env [] false (rows.take n)).map Plugin.plugin_uri).Nodup) ∧
    (load_plugin_classes_row
        [⟨some [80], [65], some [97]⟩, ⟨some [80], [67], some [99]⟩]
        ⟨.resource [66], .resource [80], .literal [98]⟩ =
      raptor_sequence_sort slv2_plugin_class_compare_by_uri
        [⟨some [80], [65], some [97]⟩, ⟨some [80], [67], some [99]⟩,
          ⟨some [80], [66], some [98]⟩] ∧
      load_plugin_classes_row
        [⟨some [80], [65], some [97]⟩, ⟨some [80], [67], some [99]⟩]
        ⟨.resource [66], .resource [80], .literal [98]⟩ =
      [⟨some [80], [65], some [97]⟩, ⟨some [80], [66], some [98]⟩,
        ⟨some [80], [67], some [99]⟩]) := by
  refine ⟨?_, ?_, ?_⟩
  · intro rows n
    have h : Ascending PluginClass.uri (slv2_world_load_plugin_classes [] (rows.take n)) :=
      ascending_load_plugin_classes List.Pairwise.nil _
    exact ⟨h, h.nodup_keys⟩
  · intro env rows n
    have h : Ascending Plugin.plugin_uri (load_all_plugins env [] false (rows.take n)) :=
      ascending_load_all_plugins env List.Pairwise.nil false _
    exact ⟨h, h.nodup_keys⟩
  · decide

/-- C2: the keys of a registry folded from the empty registry are exactly the
distinct keys of the rows that carry the required bindings, in ascending
`strcmp` order (`sorted_distinct_keys`: strictly ascending, same members as the
stream); this holds for the class fold, for the plugin fold applied to every
row, and for the plugin loop of a build without `SLV2_DYN_MANIFEST`. Rows with
keys `B`, `A`, `C` give `[A, B, C]`. -/
theorem registry_keys_sorted_distinct :
    (∀ ks : List CStr,
      (sorted_distinct_keys ks).Pairwise (fun a b => strcmp a b < 0) ∧
        ∀ x, x ∈ sorted_distinct_keys ks ↔ x ∈ ks) ∧
    (∀ rows : List ClassRow,
      (slv2_world_load_plugin_classes [] rows).map PluginClass.uri =
        sorted_distinct_keys (rows.filterMap class_row_key)) ∧
    (∀ (env : Env) (rows : List PluginRow),
      (rows.foldl (load_all_row env) []).map Plugin.plugin_uri =
        sorted_distinct_keys (rows.filterMap plugin_row_key)) ∧
    (∀ (env : Env) (rows : List PluginRow),
      (load_all_plugins { env with SLV2_DYN_MANIFEST := false } [] false rows).map
          Plugin.plugin_uri =
        sorted_distinct_keys (rows.filterMap plugin_row_key)) ∧
    (slv2_world_load_plugin_classes []
        [⟨.resource [66], .resource [80], .literal [98]⟩,
          ⟨.resource [65], .resource [80], .literal [97]⟩,
          ⟨.resource [67], .resource [80], .literal [99]⟩]).map PluginClass.uri =
      [[65], [66], [67]] ∧
    (load_all_plugins ⟨false, true, fun _ => [], fun b r => b ++ r, fun _ => none,
        fun _ => none, fun _ => none⟩ [] false
        [⟨.resource [66], .resource [100], .resource [120]⟩,
          ⟨.resource [65], .resource [101], .resource [120]⟩,
          ⟨.resource [67], .resource [102], .resource [120]⟩]).map Plugin.plugin_uri =
      [[65], [66], [67]] := by
  have hplug : ∀ (env : Env) (rows : List PluginRow),
      (rows.foldl (load_all_row env) []).map Plugin.plugin_uri =
        sorted_distinct_keys (rows.filterMap plugin_row_key) := by
    intro env rows
    have hasc : Ascending Plugin.plugin_uri (rows.foldl (load_all_row env) []) :=
      ascending_foldl_load_all_row env List.Pairwise.nil rows
    refine eq_sorted_distinct_keys (List.pairwise_map.2 hasc) ?_
    intro x
    rw [mem_keys_foldl_load_all_row env List.Pairwise.nil]
    simp
  refine ⟨?_, ?_, hplug, ?_, ?_, ?_⟩
  · intro ks
    have hmem : ∀ x, x ∈ sorted_distinct_keys ks ↔ x ∈ ks := by
      intro x
      unfold sorted_distinct_keys
      rw [(List.perm_insertionSort _ _).mem_iff, List.mem_dedup]
    refine ⟨?_, hmem⟩
    have hasc : Ascending (fun x : CStr => x)
        (raptor_sequence_sort (fun a b => strcmp a b) ks.dedup) :=
      ascending_sort (by rw [List.map_id']; exact List.nodup_dedup ks)
    exact hasc
  · intro rows
    refine eq_sorted_distinct_keys
      (List.pairwise_map.2 (ascending_load_plugin_classes List.Pairwise.nil rows)) ?_
    intro x
    rw [mem_keys_load_plugin_classes List.Pairwise.nil]
    simp
  · intro env rows
    rw [load_all_plugins_eq_foldl _ _ _ (fun row _ => advances_twice_without_option env row)]
    exact hplug _ rows
  · decide
  · decide

/-! ## The data resources of a plugin -/

/-- C3: when no data resource of the stream is extension-supplied, every plugin
of the registry folded from the empty registry carries in `data_uris` exactly
the data resources of the rows with its URI, in arrival order and with
repetitions kept, and no extension resource; two successive rows with one key
give one element with the data resources of both. -/
theorem plugin_data_uris_in_arrival_order (env : Env) (rows : List PluginRow)
    (hstatic : ∀ row ∈ rows, ∀ d, librdf_node_get_uri row.data_node = some d →
      is_dynman env d = false) :
    (∀ p ∈ load_all_plugins env [] false rows,
      p.data_uris = rows.filterMap (row_data_for p.plugin_uri) ∧ p.dynman_uri = none) ∧
    (∀ (k d1 d2 : CStr) (b1 b2 : Node), is_dynman env d1 = false → is_dynman env d2 = false →
      load_all_plugins env [] false
          [⟨.resource k, .resource d1, b1⟩, ⟨.resource k, .resource d2, b2⟩] =
        [⟨k, librdf_node_get_uri b1, [d1, d2], none⟩]) := by
  constructor
  · intro p hp
    rw [load_all_plugins_eq_foldl env [] rows
      (fun row hrow => advances_twice_of_static env row (hstatic row hrow))] at hp
    have hinv : DataInv ([] ++ rows) (rows.foldl (load_all_row env) []) :=
      dataInv_foldl env ⟨List.Pairwise.nil, by simp, by simp⟩ rows hstatic
    exact hinv.2.1 p hp
  · intro k d1 d2 b1 b2 h1 h2
    simp [load_all_plugins, load_all_row, advances_twice, librdf_node_get_uri,
      record_data, h1, h2, slv2_plugin_new]

/-- C3 at the rows `(A, x)`, `(B, y)`, `(A, x)`, `(A, z)` in a build without
the extension option. -/
theorem plugin_data_uris_in_arrival_order_witness :
    (∀ row ∈ ([⟨.resource [65], .resource [120], .resource [98]⟩,
          ⟨.resource [66], .resource [121], .resource [98]⟩,
          ⟨.resource [65], .resource [120], .resource [98]⟩,
          ⟨.resource [65], .resource [122], .resource [98]⟩] : List PluginRow),
        ∀ d, librdf_node_get_uri row.data_node = some d → is_dynman bare_env d = false) ∧
      load_all_plugins bare_env [] false
          [⟨.resource [65], .resource [120], .resource [98]⟩,
            ⟨.resource [66], .resource [121], .resource [98]⟩,
            ⟨.resource [65], .resource [120], .resource [98]⟩,
            ⟨.resource [65], .resource [122], .resource [98]⟩] =
        [⟨[65], some [98], [[120], [120], [122]], none⟩, ⟨[66], some [98], [[121]], none⟩] ∧
      ∀ p ∈ load_all_plugins bare_env [] false
          [⟨.resource [65], .resource [120], .resource [98]⟩,
            ⟨.resource [66], .resource [121], .resource [98]⟩,
            ⟨.resource [65], .resource [120], .resource [98]⟩,
            ⟨.resource [65], .resource [122], .resource [98]⟩],
        p.data_uris = List.filterMap (row_data_for p.plugin_uri)
            [⟨.resource [65], .resource [120], .resource [98]⟩,
              ⟨.resource [66], .resource [121], .resource [98]⟩,
              ⟨.resource [65], .resource [120], .resource [98]⟩,
              ⟨.resource [65], .resource [122], .resource [98]⟩] ∧
          p.dynman_uri = none :=
  ⟨fun _ _ _ _ => rfl, by decide,
    (plugin_data_uris_in_arrival_order bare_env _ (fun _ _ _ _ => rfl)).1⟩

/-- C10: every class of the registry folded from the empty registry has one
parent, the parent of the first row in arrival order that carries its URI with
a resolvable class and parent (and the label of that row); a further row with
the URI of the class, wherever the class stands in the registry, leaves the
registry as it is. -/
theorem class_keeps_first_seen_parent (rows : List ClassRow) (c : PluginClass)
    (hc : c ∈ slv2_world_load_plugin_classes [] rows) :
    (∃ r0 parent,
      rows.find? (fun r => decide (class_row_key r = some c.uri)) = some r0 ∧
        librdf_node_get_uri r0.parent_node = some parent ∧
        c.parent_uri = some parent ∧
        c.label = librdf_node_get_literal_value r0.label_node) ∧
    ∀ row, class_row_key row = some c.uri →
      load_plugin_classes_row (slv2_world_load_plugin_classes [] rows) row =
        slv2_world_load_plugin_classes [] rows := by
  have hinv : ClassInv ([] ++ rows) (slv2_world_load_plugin_classes [] rows) :=
    classInv_load_plugin_classes ⟨List.Pairwise.nil, by simp, by simp⟩ rows
  rw [List.nil_append] at hinv
  constructor
  · obtain ⟨r0, hr0, hpar, hlabel⟩ := hinv.2.1 c hc
    have hkey : class_row_key r0 = some c.uri := by
      simpa using List.find?_some hr0
    cases hp : librdf_node_get_uri r0.parent_node with
    | none =>
      cases hk : librdf_node_get_uri r0.class_node <;> simp [class_row_key, hk, hp] at hkey
    | some parent => exact ⟨r0, parent, hr0, hp, by rw [hpar, hp], hlabel⟩
  · intro row hrow
    exact load_plugin_classes_row_of_mem hinv.1 hc hrow

/-- C10 at the rows `B` (parent `P`), `A`, `C`, `B` (parent `Q`): the class `B`
keeps the parent `P`, and a third row for `B` changes nothing. -/
theorem class_keeps_first_seen_parent_witness :
    (⟨some [80], [66], some [98]⟩ : PluginClass) ∈ slv2_world_load_plugin_classes []
        [⟨.resource [66], .resource [80], .literal [98]⟩,
          ⟨.resource [65], .resource [80], .literal [97]⟩,
          ⟨.resource [67], .resource [80], .literal [99]⟩,
          ⟨.resource [66], .resource [81], .literal [100]⟩] ∧
      slv2_world_load_plugin_classes []
          [⟨.resource [66], .resource [80], .literal [98]⟩,
            ⟨.resource [65], .resource [80], .literal [97]⟩,
            ⟨.resource [67], .resource [80], .literal [99]⟩,
            ⟨.resource [66], .resource [81], .literal [100]⟩] =
        [⟨some [80], [65], some [97]⟩, ⟨some [80], [66], some [98]⟩,
          ⟨some [80], [67], some [99]⟩] ∧
      ∀ row, class_row_key row = some [66] →
        load_plugin_classes_row (slv2_world_load_plugin_classes []
            [⟨.resource [66], .resource [80], .literal [98]⟩,
              ⟨.resource [65], .resource [80], .literal [97]⟩,
              ⟨.resource [67], .resource [80], .literal [99]⟩,
              ⟨.resource [66], .resource [81], .literal [100]⟩]) row =
          slv2_world_load_plugin_classes []
            [⟨.resource [66], .resource [80], .literal [98]⟩,
              ⟨.resource [65], .resource [80], .literal [97]⟩,
              ⟨.resource [67], .resource [80], .literal [99]⟩,
              ⟨.resource [66], .resource [81], .literal [100]⟩] :=
  ⟨by decide, by decide,
    (class_keeps_first_seen_parent _ ⟨some [80], [66], some [98]⟩ (by decide)).2⟩

/-! ## The bundle reference, the search path, the filter, dropped rows -/

/-- C5: a bundle reference that is not a URI value is reported as an error and
nothing else happens: the global model, both registries and the flag `warned`
are as before, and the log gains the error message and no storage creation. -/
theorem load_bundle_rejects_non_uri (env : Env) (world : World) (bundle_uri : SLV2Value)
    (h : slv2_value_is_uri bundle_uri = false) :
    slv2_world_load_bundle env world bundle_uri =
        { world with log := world.log ++ [Event.error_bundle_not_uri] } ∧
      (slv2_world_load_bundle env world bundle_uri).model = world.model ∧
      (slv2_world_load_bundle env world bundle_uri).plugin_classes = world.plugin_classes ∧
      (slv2_world_load_bundle env world bundle_uri).plugins = world.plugins ∧
      ∀ backend, Event.new_storage backend ∈ (slv2_world_load_bundle env world bundle_uri).log →
        Event.new_storage backend ∈ world.log := by
  cases bundle_uri with
  | uri u => simp [slv2_value_is_uri] at h
  | literal s =>
    refine ⟨rfl, rfl, rfl, rfl, ?_⟩
    intro backend hb
    simpa [slv2_world_load_bundle] using hb

/-- C5 at a literal bundle reference, in surroundings that hold a bundle. -/
theorem load_bundle_rejects_non_uri_witness :
    slv2_value_is_uri (SLV2Value.literal [97, 47, 120, 47]) = false ∧
      slv2_world_load_bundle bundle_env empty_world (SLV2Value.literal [97, 47, 120, 47]) =
        { empty_world with log := [Event.error_bundle_not_uri] } :=
  ⟨rfl, (load_bundle_rejects_non_uri bundle_env empty_world
    (SLV2Value.literal [97, 47, 120, 47]) rfl).1⟩

/-- C6: for a search path without NUL bytes, `slv2_world_load_path` terminates
and its effect is that of `slv2_world_load_directory` applied once to each
`':'`-separated segment, from left to right, with the segment as directory
name; `slv2_world_load_directory` passes over the entries `.` and `..`: the
world after a directory is the world after its other entries alone. -/
theorem load_path_scans_each_segment (env : Env) (world : World) (lv2_path : CStr)
    (h : ∀ b ∈ lv2_path, b ≠ 0) :
    slv2_world_load_path env world lv2_path =
        some ((lv2_path.splitOn colon).foldl (slv2_world_load_directory env) world) ∧
      (∀ (dir : CStr) (w : World),
        load_directory_entry env dir w dot = w ∧ load_directory_entry env dir w dotdot = w) ∧
      ∀ (dir : CStr) (w : World) (entries : List CStr), env.opendir dir = some entries →
        slv2_world_load_directory env w dir =
          (entries.filter (fun e => decide (e ≠ dot ∧ e ≠ dotdot))).foldl
            (load_directory_entry env dir) { w with log := w.log ++ [Event.opendir dir] } := by
  refine ⟨?_, ?_, ?_⟩
  · have := load_path_loop_spec env (lv2_path.length + 2) world [] lv2_path (by simp) h
      (le_refl _)
    simpa [slv2_world_load_path] using this
  · intro dir w
    exact ⟨load_directory_entry_dot env dir w dot (Or.inl rfl),
      load_directory_entry_dot env dir w dotdot (Or.inr rfl)⟩
  · intro dir w entries hdir
    simp only [slv2_world_load_directory, hdir]
    exact foldl_load_directory_entry_filter env dir entries _

/-- C6 at the path `a:b` where `a` holds `.`, `..`, a bundle `x` and a file `f`:
`a` is scanned, then `b`; in `a` only `x` and `f` are probed, and `x` is
loaded. -/
theorem load_path_scans_each_segment_witness :
    (∀ b ∈ ([97, 58, 98] : CStr), b ≠ 0) ∧
      slv2_world_load_path bundle_env empty_world [97, 58, 98] =
        some (slv2_world_load_directory bundle_env
          (slv2_world_load_directory bundle_env empty_world [97]) [98]) ∧
      (slv2_world_load_path bundle_env empty_world [97, 58, 98]).map (fun w => w.log) =
        some [Event.opendir [97], Event.opendir [97, 47, 120, 47],
          Event.new_storage Backend.trees, Event.opendir [97, 47, 102, 47],
          Event.opendir [98]] :=
  ⟨by decide, (load_path_scans_each_segment bundle_env empty_world [97, 58, 98]
    (by decide)).1, by decide⟩

/-- C8: `slv2_world_get_plugins_by_filter` returns the plugins of the registry
for which the predicate holds, in registry order, and leaves the world, with
its plugin registry, as it was. -/
theorem get_plugins_by_filter_is_filter (world : World) (incl : Plugin → Bool) :
    (slv2_world_get_plugins_by_filter world incl).1 = world.plugins.filter incl ∧
      (slv2_world_get_plugins_by_filter world incl).2 = world ∧
      (slv2_world_get_plugins_by_filter world incl).2.plugins = world.plugins := by
  refine ⟨?_, rfl, rfl⟩
  simp [slv2_world_get_plugins_by_filter,
    get_plugins_by_filter_loop_eq world.plugins incl world.plugins.length 0 [] (by simp)]

/-- C9, counterexample: a class row with a resolvable class and parent whose
label node is no literal is folded; the registry gains a class without label. -/
theorem class_row_without_label_is_folded :
    librdf_node_get_literal_value (Node.resource [76]) = none ∧
      load_plugin_classes_row [] ⟨.resource [65], .resource [80], .resource [76]⟩ =
        [⟨some [80], [65], none⟩] ∧
      ¬ (∀ (classes : List PluginClass) (row : ClassRow),
          (librdf_node_get_uri row.class_node = none ∨
            librdf_node_get_uri row.parent_node = none ∨
            librdf_node_get_literal_value row.label_node = none) →
          load_plugin_classes_row classes row = classes) := by
  refine ⟨rfl, by decide, ?_⟩
  intro hall
  have := hall [] ⟨.resource [65], .resource [80], .resource [76]⟩ (Or.inr (Or.inr rfl))
  revert this
  decide

/-- C9, amended: a class row that lacks a resolvable class URI or a resolvable
parent URI is dropped: the registry after the row is the registry before it. -/
theorem class_row_without_class_or_parent_dropped (classes : List PluginClass)
    (row : ClassRow)
    (h : librdf_node_get_uri row.class_node = none ∨
      librdf_node_get_uri row.parent_node = none) :
    load_plugin_classes_row classes row = classes ∧
      slv2_world_load_plugin_classes classes [row] = classes := by
  have hkey : class_row_key row = none := by
    unfold class_row_key
    rcases h with h | h
    · rw [h]
    · rw [h]; cases librdf_node_get_uri row.class_node <;> rfl
  exact ⟨load_plugin_classes_row_dropped hkey classes,
    load_plugin_classes_row_dropped hkey classes⟩

/-- C9, amended, at a row whose parent node is a literal. -/
theorem class_row_without_class_or_parent_dropped_witness :
    (librdf_node_get_uri (Node.resource [65]) = none ∨
        librdf_node_get_uri (Node.literal [80]) = none) ∧
      load_plugin_classes_row [⟨some [80], [66], some [98]⟩]
          ⟨.resource [65], .literal [80], .literal [97]⟩ =
        [⟨some [80], [66], some [98]⟩] :=
  ⟨Or.inr rfl, (class_row_without_class_or_parent_dropped [⟨some [80], [66], some [98]⟩]
    ⟨.resource [65], .literal [80], .literal [97]⟩ (Or.inr rfl)).1⟩

/-! ## What a bundle adds to the global model -/

/-- C4: when the manifest declares no extension binary (or the build has no
extension step), the global model after `slv2_world_load_bundle` on the bundle
URI `B` holds exactly the triples it held before, the triples of the manifest,
and, for every subject `e` typed `lv2:Plugin` or `lv2:Specification` in the
manifest, the two triples `(e, rdfs:seeAlso, manifest)` and
`(e, slv2:bundleURI, B)`; the model before is an initial part of the model
after, no duplicate arises, and the registries are not touched. -/
theorem load_bundle_adds_manifest_and_links (env : Env) (world : World) (uri_val : CStr)
    (hext : env.SLV2_DYN_MANIFEST = false ∨
      dyn_manifest_query (librdf_model_add_statements []
        (env.parse (env.relative_to_base uri_val (cstr "manifest.ttl")))) = []) :
    (∀ t, t ∈ (slv2_world_load_bundle env world (SLV2Value.uri uri_val)).model ↔
      t ∈ world.model ∨
        t ∈ env.parse (env.relative_to_base uri_val (cstr "manifest.ttl")) ∨
        ∃ e, ((⟨e, rdf_a_node, lv2_plugin_node⟩ : Triple) ∈
              env.parse (env.relative_to_base uri_val (cstr "manifest.ttl")) ∨
            (⟨e, rdf_a_node, lv2_specification_node⟩ : Triple) ∈
              env.parse (env.relative_to_base uri_val (cstr "manifest.ttl"))) ∧
          (t = ⟨e, rdfs_seeAlso_node,
              .resource (env.relative_to_base uri_val (cstr "manifest.ttl"))⟩ ∨
            t = ⟨e, slv2_bundleURI_node, .resource uri_val⟩)) ∧
      (∃ added, (slv2_world_load_bundle env world (SLV2Value.uri uri_val)).model =
        world.model ++ added) ∧
      (world.model.Nodup →
        (slv2_world_load_bundle env world (SLV2Value.uri uri_val)).model.Nodup) ∧
      (slv2_world_load_bundle env world (SLV2Value.uri uri_val)).plugins = world.plugins ∧
      (slv2_world_load_bundle env world (SLV2Value.uri uri_val)).plugin_classes =
        world.plugin_classes := by
  rcases hext with hflag | hquery
  · exact ⟨mem_model_load_bundle_static env world uri_val hflag,
      model_load_bundle_static_extends env world uri_val hflag⟩
  · rw [load_bundle_of_no_loads env world uri_val (by rw [hquery]; simp)]
    exact ⟨mem_model_load_bundle_static { env with SLV2_DYN_MANIFEST := false } world uri_val
        rfl,
      model_load_bundle_static_extends { env with SLV2_DYN_MANIFEST := false } world uri_val
        rfl⟩

/-- C4 at the bundle `file://a/x/` whose manifest declares the one plugin `p`:
the model gains the two links of `p` and the declaration. -/
theorem load_bundle_adds_manifest_and_links_witness :
    (bundle_env.SLV2_DYN_MANIFEST = false ∨
      dyn_manifest_query (librdf_model_add_statements []
        (bundle_env.parse (bundle_env.relative_to_base (file_scheme ++ [97, 47, 120, 47])
          (cstr "manifest.ttl")))) = []) ∧
      (slv2_world_load_bundle bundle_env empty_world
          (SLV2Value.uri (file_scheme ++ [97, 47, 120, 47]))).model =
        [⟨.resource [112], rdfs_seeAlso_node,
            .resource (file_scheme ++ [97, 47, 120, 47] ++ cstr "manifest.ttl")⟩,
          ⟨.resource [112], slv2_bundleURI_node, .resource (file_scheme ++ [97, 47, 120, 47])⟩,
          ⟨.resource [112], rdf_a_node, lv2_plugin_node⟩] ∧
      ∃ added, (slv2_world_load_bundle bundle_env empty_world
          (SLV2Value.uri (file_scheme ++ [97, 47, 120, 47]))).model =
        empty_world.model ++ added :=
  ⟨Or.inl rfl, by decide,
    (load_bundle_adds_manifest_and_links bundle_env empty_world
      (file_scheme ++ [97, 47, 120, 47]) (Or.inl rfl)).2.1⟩

/-- What holds of a bundle whose declared extension binaries all fail to load:
`slv2_world_load_bundle` leaves the world as a build without the extension
step does; in any case the loop over the binaries has the effect of the loop
over the binaries that load; and every resource `u` typed `lv2:Plugin` in the
manifest has its declaration and its two links in the global model. It stands
in the registry the plugin loop builds from that model only if the loop
advances the stream once per row. -/
theorem failing_binaries_are_skipped (env : Env) (world : World) (uri_val : CStr)
    (hfail : ∀ b ∈ dyn_manifest_query (librdf_model_add_statements []
      (env.parse (env.relative_to_base uri_val (cstr "manifest.ttl")))),
      binary_loads env b = false) :
    slv2_world_load_bundle env world (SLV2Value.uri uri_val) =
        slv2_world_load_bundle { env with SLV2_DYN_MANIFEST := false } world
          (SLV2Value.uri uri_val) ∧
      (∀ (state : World × List Triple) (binaries : List Node),
        binaries.foldl (load_dyn_manifest env uri_val) state =
          (binaries.filter (binary_loads env)).foldl (load_dyn_manifest env uri_val) state) ∧
      ∀ u, (⟨.resource u, rdf_a_node, lv2_plugin_node⟩ : Triple) ∈
          env.parse (env.relative_to_base uri_val (cstr "manifest.ttl")) →
        (⟨.resource u, rdf_a_node, lv2_plugin_node⟩ : Triple) ∈
            (slv2_world_load_bundle env world (SLV2Value.uri uri_val)).model ∧
          (⟨.resource u, rdfs_seeAlso_node,
              .resource (env.relative_to_base uri_val (cstr "manifest.ttl"))⟩ : Triple) ∈
            (slv2_world_load_bundle env world (SLV2Value.uri uri_val)).model ∧
          (⟨.resource u, slv2_bundleURI_node, .resource uri_val⟩ : Triple) ∈
            (slv2_world_load_bundle env world (SLV2Value.uri uri_val)).model ∧
          ((∀ row ∈ plugin_query
                (slv2_world_load_bundle env world (SLV2Value.uri uri_val)).model,
              advances_twice env row = false) →
            u ∈ (load_all_plugins env [] false (plugin_query
              (slv2_world_load_bundle env world (SLV2Value.uri uri_val)).model)).map
                Plugin.plugin_uri) := by
  refine ⟨load_bundle_of_no_loads env world uri_val hfail,
    foldl_load_dyn_manifest_filter env uri_val, ?_⟩
  intro u hu
  have hmem := mem_model_load_bundle_static { env with SLV2_DYN_MANIFEST := false } world
    uri_val rfl
  rw [← load_bundle_of_no_loads env world uri_val hfail] at hmem
  have h1 : (⟨.resource u, rdf_a_node, lv2_plugin_node⟩ : Triple) ∈
      (slv2_world_load_bundle env world (SLV2Value.uri uri_val)).model :=
    (hmem _).2 (Or.inr (Or.inl hu))
  have h2 : (⟨.resource u, rdfs_seeAlso_node,
      .resource (env.relative_to_base uri_val (cstr "manifest.ttl"))⟩ : Triple) ∈
      (slv2_world_load_bundle env world (SLV2Value.uri uri_val)).model :=
    (hmem _).2 (Or.inr (Or.inr ⟨.resource u, Or.inl hu, Or.inl rfl⟩))
  have h3 : (⟨.resource u, slv2_bundleURI_node, .resource uri_val⟩ : Triple) ∈
      (slv2_world_load_bundle env world (SLV2Value.uri uri_val)).model :=
    (hmem _).2 (Or.inr (Or.inr ⟨.resource u, Or.inl hu, Or.inr rfl⟩))
  refine ⟨h1, h2, h3, ?_⟩
  intro hadv
  rw [load_all_plugins_eq_foldl env [] _ hadv,
    mem_keys_foldl_load_all_row env List.Pairwise.nil, List.mem_filterMap]
  refine Or.inr ⟨⟨.resource u,
    .resource (env.relative_to_base uri_val (cstr "manifest.ttl")), .resource uri_val⟩, ?_, rfl⟩
  rw [mem_plugin_query]
  exact ⟨h1, h3, h2⟩

/-- The bundle `file://a/x/` whose manifest declares the plugin `p` and a binary
that does not load, loaded into the empty world: the world is that of the
static load and `p` is in the registry. -/
theorem failing_binaries_are_skipped_witness :
    (∀ b ∈ dyn_manifest_query (librdf_model_add_statements []
        (dyn_env.parse (dyn_env.relative_to_base (file_scheme ++ [97, 47, 120, 47])
          (cstr "manifest.ttl")))),
        binary_loads dyn_env b = false) ∧
      dyn_manifest_query (librdf_model_add_statements []
        (dyn_env.parse (dyn_env.relative_to_base (file_scheme ++ [97, 47, 120, 47])
          (cstr "manifest.ttl")))) =
        [.resource (file_scheme ++ [97, 47, 120, 47, 108])] ∧
      slv2_world_load_bundle dyn_env empty_world
          (SLV2Value.uri (file_scheme ++ [97, 47, 120, 47])) =
        slv2_world_load_bundle { dyn_env with SLV2_DYN_MANIFEST := false } empty_world
          (SLV2Value.uri (file_scheme ++ [97, 47, 120, 47])) ∧
      (load_all_plugins dyn_env [] false (plugin_query
          (slv2_world_load_bundle dyn_env empty_world
            (SLV2Value.uri (file_scheme ++ [97, 47, 120, 47]))).model)).map
        Plugin.plugin_uri = [[112]] :=
  ⟨by decide, by decide,
    (failing_binaries_are_skipped dyn_env empty_world (file_scheme ++ [97, 47, 120, 47])
      (by decide)).1, by decide⟩

/-- C7, evaluation: in a build with `SLV2_DYN_MANIFEST`, the bundle `file://a/x/`
declares the plugin `p` and one extension binary, which fails to load, and is
loaded into a world that holds the plugin `A` with a library as data resource.
The global model changes as without the extension step and holds the
declaration of `p` and its two links, but the plugin loop advances the stream
twice at the row of `A` and steps over the row of `p`: the registry holds `A`
alone, whereas folding every row gives `A` and `p`. -/
theorem static_plugin_lost_behind_extension_row :
    (∀ b ∈ dyn_manifest_query (librdf_model_add_statements []
        (mixed_env.parse (mixed_env.relative_to_base (file_scheme ++ [97, 47, 120, 47])
          (cstr "manifest.ttl")))),
        binary_loads mixed_env b = false) ∧
      dyn_manifest_query (librdf_model_add_statements []
        (mixed_env.parse (mixed_env.relative_to_base (file_scheme ++ [97, 47, 120, 47])
          (cstr "manifest.ttl")))) =
        [.resource (file_scheme ++ [97, 47, 120, 47, 107])] ∧
      slv2_world_load_bundle mixed_env world_with_extension_plugin
          (SLV2Value.uri (file_scheme ++ [97, 47, 120, 47])) =
        slv2_world_load_bundle { mixed_env with SLV2_DYN_MANIFEST := false }
          world_with_extension_plugin (SLV2Value.uri (file_scheme ++ [97, 47, 120, 47])) ∧
      (⟨.resource [112], rdf_a_node, lv2_plugin_node⟩ : Triple) ∈
        mixed_env.parse (mixed_env.relative_to_base (file_scheme ++ [97, 47, 120, 47])
          (cstr "manifest.ttl")) ∧
      plugin_query (slv2_world_load_bundle mixed_env world_with_extension_plugin
          (SLV2Value.uri (file_scheme ++ [97, 47, 120, 47]))).model =
        [⟨.resource [65], .resource (file_scheme ++ [108]),
            .resource (file_scheme ++ [98, 47])⟩,
          ⟨.resource [112],
            .resource (file_scheme ++ [97, 47, 120, 47] ++ cstr "manifest.ttl"),
            .resource (file_scheme ++ [97, 47, 120, 47])⟩] ∧
      (load_all_plugins mixed_env [] false (plugin_query
          (slv2_world_load_bundle mixed_env world_with_extension_plugin
            (SLV2Value.uri (file_scheme ++ [97, 47, 120, 47]))).model)).map
        Plugin.plugin_uri = [[65]] ∧
      [112] ∉ (load_all_plugins mixed_env [] false (plugin_query
          (slv2_world_load_bundle mixed_env world_with_extension_plugin
            (SLV2Value.uri (file_scheme ++ [97, 47, 120, 47]))).model)).map
        Plugin.plugin_uri ∧
      (List.foldl (load_all_row mixed_env) [] (plugin_query
          (slv2_world_load_bundle mixed_env world_with_extension_plugin
            (SLV2Value.uri (file_scheme ++ [97, 47, 120, 47]))).model)).map
        Plugin.plugin_uri = [[65], [112]] := by
  refine ⟨by decide, by decide, by decide, by decide, by decide, by decide, by decide,
    by decide⟩

/-! ## Storage fallback, the default search path, extension rows -/

/-- C11, evaluation: every call of `slv2_world_new_storage` that finds the
"trees" storage unavailable logs the warning, also when the flag `warned` is
already set: two such calls log it twice, and over any sequence of calls the
warnings number as many as the calls that fell back. Each of these calls still
creates the "hashes" storage. -/
theorem new_storage_warns_on_every_fallback :
    (slv2_world_new_storage false empty_world).warned = true ∧
      (∀ world : World,
        (slv2_world_new_storage false (slv2_world_new_storage false world)).log =
          world.log ++ [Event.warn_no_trees, Event.new_storage Backend.hashes,
            Event.warn_no_trees, Event.new_storage Backend.hashes]) ∧
      ∀ (calls : List Bool) (world : World),
        ((calls.foldl (fun w trees_ok => slv2_world_new_storage trees_ok w) world).log.count
            Event.warn_no_trees =
          world.log.count Event.warn_no_trees + calls.count false) ∧
        ((calls.foldl (fun w trees_ok => slv2_world_new_storage trees_ok w) world).log.count
            (Event.new_storage Backend.hashes) =
          world.log.count (Event.new_storage Backend.hashes) + calls.count false) := by
  refine ⟨rfl, ?_, ?_⟩
  · intro world
    simp [slv2_world_new_storage]
  · intro calls
    induction calls with
    | nil => intro world; simp
    | cons c rest ih =>
      intro world
      rw [List.foldl_cons]
      obtain ⟨h1, h2⟩ := ih (slv2_world_new_storage c world)
      rw [h1, h2]
      cases c
      · simp [slv2_world_new_storage, List.count_cons]
        omega
      · simp [slv2_world_new_storage, List.count_cons]

/-- C12: with a default list free of NUL bytes and a `wordexp` that gives no
word for the empty string, the segment loop of `slv2_world_load_all` ends
within one iteration per byte with every store inside its buffer, and leaves in
`lv2_path` the `':'`-join of the words of the expansions of the `':'`-separated
segments, taken from left to right, with `lv2_path_len` its length; segments
without words add nothing, and `lv2_path` is still NULL when there is no word
at all. Each later word is stored inside the buffer resized to
`lv2_path_len + word_len + 2`, and the joined string is what
`slv2_world_load_path` is called with. -/
theorem default_path_is_join_of_words (wordexp : CStr → List CStr)
    (SLV2_DEFAULT_LV2_PATH : CStr) (hpath : ∀ b ∈ SLV2_DEFAULT_LV2_PATH, b ≠ 0)
    (hempty : wordexp [] = []) :
    load_all_default_path wordexp SLV2_DEFAULT_LV2_PATH =
        some (match (SLV2_DEFAULT_LV2_PATH.splitOn colon).flatMap wordexp with
          | [] => (none, 0)
          | w :: ws => (some (List.intercalate [colon] (w :: ws) ++ [0]),
              (List.intercalate [colon] (w :: ws)).length)) ∧
      (∀ str word : CStr,
        append_word (some (str ++ [0]), str.length) word =
          some (some ((str ++ colon :: word) ++ [0]), (str ++ colon :: word).length) ∧
        (realloc (str ++ [0]) (str.length + word.length + 2)).length =
          str.length + word.length + 2) ∧
      ∀ (env : Env) (world : World),
        (SLV2_DEFAULT_LV2_PATH.splitOn colon).flatMap wordexp ≠ [] →
        (∀ w ∈ (SLV2_DEFAULT_LV2_PATH.splitOn colon).flatMap wordexp, ∀ b ∈ w, b ≠ 0) →
        load_all_manifests env wordexp SLV2_DEFAULT_LV2_PATH none world =
          slv2_world_load_path env world
            (List.intercalate [colon] ((SLV2_DEFAULT_LV2_PATH.splitOn colon).flatMap wordexp)) := by
  have hbuilt : load_all_default_path wordexp SLV2_DEFAULT_LV2_PATH =
      some (match (SLV2_DEFAULT_LV2_PATH.splitOn colon).flatMap wordexp with
        | [] => (none, 0)
        | w :: ws => (some (List.intercalate [colon] (w :: ws) ++ [0]),
            (List.intercalate [colon] (w :: ws)).length)) := by
    have h := default_path_loop_spec wordexp hempty (SLV2_DEFAULT_LV2_PATH.length + 1) []
      SLV2_DEFAULT_LV2_PATH (none, 0) hpath (le_refl _)
    rw [append_words_start] at h
    exact h
  refine ⟨hbuilt, ?_, ?_⟩
  · intro str word
    refine ⟨append_word_some str word, ?_⟩
    unfold realloc
    simp
    omega
  · intro env world hne hzero
    unfold load_all_manifests
    rw [hbuilt]
    cases hw : (SLV2_DEFAULT_LV2_PATH.splitOn colon).flatMap wordexp with
    | nil => exact absurd hw hne
    | cons w ws =>
      simp only
      have hjoin : ∀ b ∈ List.intercalate [colon] (w :: ws), b ≠ 0 := by
        intro b hb
        rw [intercalate_colon_cons, List.mem_append, List.mem_flatMap] at hb
        rcases hb with hb | ⟨v, hv, hb⟩
        · exact hzero w (by rw [hw]; exact List.mem_cons_self _ _) b hb
        · rcases List.mem_cons.1 hb with hb | hb
          · rw [hb]; decide
          · exact hzero v (by rw [hw]; exact List.mem_cons_of_mem _ hv) b hb
      have hstr : cstr_at ([] ++ (List.intercalate [colon] (w :: ws) ++ 0 :: [])) 0 =
          List.intercalate [colon] (w :: ws) :=
        cstr_at_segment [] _ [] hjoin
      rw [List.nil_append] at hstr
      rw [hstr]

/-- C12 at the default list `~:n*:x*:/u`, where `~` expands to `/h`, `n*` to
nothing and `x*` to `x1` and `x2`: the path built is `/h:x1:x2:/u`. -/
theorem default_path_is_join_of_words_witness :
    (∀ b ∈ ([126, 58, 110, 42, 58, 120, 42, 58, 47, 117] : CStr), b ≠ 0) ∧
      sample_wordexp [] = [] ∧
      load_all_default_path sample_wordexp [126, 58, 110, 42, 58, 120, 42, 58, 47, 117] =
        some (some [47, 104, 58, 120, 49, 58, 120, 50, 58, 47, 117, 0], 11) ∧
      load_all_default_path sample_wordexp [126, 58, 110, 42, 58, 120, 42, 58, 47, 117] =
        some (match ([126, 58, 110, 42, 58, 120, 42, 58, 47, 117] : CStr).splitOn colon
            |>.flatMap sample_wordexp with
          | [] => (none, 0)
          | w :: ws => (some (List.intercalate [colon] (w :: ws) ++ [0]),
              (List.intercalate [colon] (w :: ws)).length)) :=
  ⟨by decide, rfl, by decide,
    (default_path_is_join_of_words sample_wordexp
      [126, 58, 110, 42, 58, 120, 42, 58, 47, 117] (by decide) rfl).1⟩

/-- C13, evaluation: in a build with `SLV2_DYN_MANIFEST`, a row whose data
resource loads as a library makes the loop advance the stream twice. The row
`(A, file://l)` is recorded as the extension resource of `A` and not in
`data_uris`, and the row behind it, here `(B, d)`, is stepped over: `B` is not
in the registry, whereas folding both rows gives `A` and `B`. -/
theorem dyn_row_steps_over_next_row :
    advances_twice ext_env ⟨.resource [65], .resource (file_scheme ++ [108]), .resource [98]⟩ =
        true ∧
      load_all_plugins ext_env [] false
          [⟨.resource [65], .resource (file_scheme ++ [108]), .resource [98]⟩,
            ⟨.resource [66], .resource [100], .resource [98]⟩] =
        [⟨[65], some [98], [], some (file_scheme ++ [108])⟩] ∧
      [66] ∉ (load_all_plugins ext_env [] false
          [⟨.resource [65], .resource (file_scheme ++ [108]), .resource [98]⟩,
            ⟨.resource [66], .resource [100], .resource [98]⟩]).map Plugin.plugin_uri ∧
      List.foldl (load_all_row ext_env) []
          [⟨.resource [65], .resource (file_scheme ++ [108]), .resource [98]⟩,
            ⟨.resource [66], .resource [100], .resource [98]⟩] =
        [⟨[65], some [98], [], some (file_scheme ++ [108])⟩,
          ⟨[66], some [98], [[100]], none⟩] ∧
      ∀ (plugins : List Plugin) (row : PluginRow) (rest : List PluginRow),
        load_all_plugins ext_env plugins false
            (⟨.resource [65], .resource (file_scheme ++ [108]), .resource [98]⟩ ::
              row :: rest) =
          load_all_plugins ext_env
            (load_all_row ext_env plugins
              ⟨.resource [65], .resource (file_scheme ++ [108]), .resource [98]⟩)
            false rest := by
  refine ⟨by decide, by decide, by decide, by decide, ?_⟩
  intro plugins row rest
  have h : advances_twice ext_env
      ⟨.resource [65], .resource (file_scheme ++ [108]), .resource [98]⟩ = true := by decide
  rw [load_all_plugins, h, load_all_plugins]

end SLV2
